import Mathlib

/-!
Verification of the VeriEQL counterexample harness (`verify_verieql_cases.py`
and `evaluation/evaluation_ves.py`) against its specification.

Embedding conventions:
* Python `str` values that are scanned character by character are modelled as
  `List Char`; character classes are the ASCII fragments of the Python ones.
* SQLite cell values, after `normalize_cell`, are `None`, numbers or text; the
  embedding models them with the `Cell` type below (integers and text —
  floating-point cells are outside the scope of this shallow embedding).
* The SQLite engine itself is external; it is abstracted by the `SqlEngine`
  interface, with exceptions materialised as `Except String`.
* Scanners whose Python loops advance by a variable number of characters are
  written with an explicit fuel argument; callers pass `length + 1`, which is
  always sufficient because every step consumes at least one character.
-/

/-- ASCII decimal digit test, `'0' ≤ c ≤ '9'`. -/
def isDigitCh (c : Char) : Bool := 48 ≤ c.toNat && c.toNat ≤ 57

/-- Decimal digits of `n` (most significant first, empty for `0`), written with
fuel so that it reduces by `decide`; mirrors Python's `repr` of a nonnegative
integer when given fuel `≥ n`. -/
def natCharsAux : Nat → Nat → List Char
  | 0, _ => []
  | fuel + 1, n => if n = 0 then [] else natCharsAux fuel (n / 10) ++ [Nat.digitChar (n % 10)]

/-- Decimal rendering of a natural number, as Python `repr` / `json.dumps`. -/
def natChars (n : Nat) : List Char := if n = 0 then ['0'] else natCharsAux n n

/-- Decimal rendering of an integer, as Python `repr` / `json.dumps`. -/
def intChars : Int → List Char
  | .ofNat n => natChars n
  | .negSucc n => '-' :: natChars (n + 1)

/-- A normalized SQLite cell value, as produced by `normalize_cell`: `None`,
an integer, or text (floating-point cells are outside this embedding). -/
inductive Cell where
  | null : Cell
  | intv : Int → Cell
  | strv : String → Cell
deriving DecidableEq

/-- One result row, a tuple of normalized cells. -/
abbrev Row := List Cell

/-- `json.dumps` escaping of one character inside a string literal
(`ensure_ascii=False`): `"` and `\` are backslash-escaped, the five shorthand
control characters use their two-character escapes, the remaining control
characters use `\u00XX`, everything else is kept verbatim. -/
def escChar (c : Char) : List Char :=
  if c = '"' then ['\\', '"']
  else if c = '\\' then ['\\', '\\']
  else if c = '\n' then ['\\', 'n']
  else if c = '\t' then ['\\', 't']
  else if c = '\r' then ['\\', 'r']
  else if c.toNat = 8 then ['\\', 'b']
  else if c.toNat = 12 then ['\\', 'f']
  else if c.toNat < 32 then ['\\', 'u', '0', '0', Nat.digitChar (c.toNat / 16), Nat.digitChar (c.toNat % 16)]
  else [c]

/-- `json.dumps` escaping of a whole string body. -/
def escape (s : List Char) : List Char := (s.map escChar).flatten

/-- `json.dumps` of one cell. -/
def encCell : Cell → List Char
  | .null => ['n', 'u', 'l', 'l']
  | .intv i => intChars i
  | .strv s => '"' :: escape s.data ++ ['"']

/-- The comma-space separated cell encodings of a row (`json.dumps` uses the
default `", "` item separator). -/
def sepcat : List Cell → List Char
  | [] => []
  | [c] => encCell c
  | c :: c' :: t => encCell c ++ ',' :: ' ' :: sepcat (c' :: t)

/-- `json.dumps` of a row: a JSON array of its cells. -/
def encRow (r : Row) : List Char := '[' :: sepcat r ++ [']']

/-- `json.dumps(r, ensure_ascii=False, sort_keys=True)` for a row tuple `r`
(`sort_keys` is irrelevant for arrays). -/
def jsonRow (r : Row) : String := (encRow r).asString

/-- `as_bag` from `results_equal`: the `Counter` of the serialized rows,
i.e. the multiset of their `json.dumps` forms. -/
def as_bag (rows : List Row) : Multiset String := (rows.map jsonRow : List String)

/-- A normalized query result as built by `normalize_result`: the cursor's
column names and the normalized rows. -/
structure ResultSet where
  columns : List String
  rows : List Row
deriving DecidableEq

/-- `results_equal` from `verify_verieql_cases.py`: column-name sequences must
match exactly; rows are compared as a sequence when `order_sensitive`, and as
a `Counter` (multiset) of serialized rows otherwise. -/
def results_equal (res1 res2 : ResultSet) (order_sensitive : Bool) : Bool :=
  if res1.columns ≠ res2.columns then false
  else if order_sensitive then decide (res1.rows = res2.rows)
  else decide (as_bag res1.rows = as_bag res2.rows)

/-- `maybe_scalar`: the single cell of a one-row, one-column result. -/
def maybe_scalar (res : ResultSet) : Option Cell :=
  if res.rows.length = 1 ∧ res.columns.length = 1 then (res.rows.headD []).head? else none

/-- Value of an ASCII hex digit as produced by `Nat.digitChar` (`0`-`9`,
`a`-`f`); `16` for anything else. -/
def hexDigitVal (c : Char) : Nat :=
  if 48 ≤ c.toNat && c.toNat ≤ 57 then c.toNat - 48
  else if 97 ≤ c.toNat && c.toNat ≤ 102 then c.toNat - 87
  else 16

/-- Decoder for one backslash escape sequence (the part after the backslash):
returns the decoded character and the remaining input. -/
def decEsc : List Char → Option (Char × List Char)
  | [] => none
  | e :: t' =>
    if e = '"' then some ('"', t')
    else if e = '\\' then some ('\\', t')
    else if e = 'n' then some ('\n', t')
    else if e = 't' then some ('\t', t')
    else if e = 'r' then some ('\r', t')
    else if e = 'b' then some (Char.ofNat 8, t')
    else if e = 'f' then some (Char.ofNat 12, t')
    else if e = 'u' then
      match t' with
      | a :: b :: c2 :: d :: t'' =>
        if hexDigitVal a < 16 && hexDigitVal b < 16 && hexDigitVal c2 < 16 && hexDigitVal d < 16 then
          some (Char.ofNat (4096 * hexDigitVal a + 256 * hexDigitVal b + 16 * hexDigitVal c2 + hexDigitVal d), t'')
        else none
      | _ => none
    else none

/-- Decoder for the body of a JSON string literal (everything after the opening
quote, up to and including the closing quote); inverse of `escape`. -/
def decStrAux : Nat → List Char → Option (List Char × List Char)
  | _, [] => none
  | 0, _ => none
  | fuel + 1, c :: t =>
    if c = '"' then some ([], t)
    else if c = '\\' then
      (decEsc t).bind (fun p => (decStrAux fuel p.2).map (fun q => (p.1 :: q.1, q.2)))
    else (decStrAux fuel t).map (fun q => (c :: q.1, q.2))

/-- Greedy decimal-digit scanner: consumes leading digits, accumulating their
value onto `acc`; returns the value and the unconsumed remainder. -/
def decNatAux : Nat → List Char → Nat → Nat × List Char
  | _, [], acc => (acc, [])
  | 0, cs, acc => (acc, cs)
  | fuel + 1, c :: t, acc =>
    if isDigitCh c then decNatAux fuel t (10 * acc + (c.toNat - 48)) else (acc, c :: t)

/-- Decoder for one JSON cell (`null`, an integer, or a string literal);
inverse of `encCell`. -/
def decCell : List Char → Option (Cell × List Char)
  | [] => none
  | c :: t =>
    if c = 'n' then
      if t.take 3 = ['u', 'l', 'l'] then some (.null, t.drop 3) else none
    else if c = '"' then
      (decStrAux t.length t).map (fun p => (Cell.strv p.1.asString, p.2))
    else if c = '-' then
      t.head?.bind (fun d =>
        if isDigitCh d then
          (fun p => some (Cell.intv (-(p.1 : Int)), p.2)) (decNatAux t.tail.length t.tail (d.toNat - 48))
        else none)
    else if isDigitCh c then
      (fun p => some (Cell.intv (p.1 : Int), p.2)) (decNatAux t.length t (c.toNat - 48))
    else none

/-- Decoder for a nonempty comma-space separated cell sequence terminated by
`]` (with nothing after it); inverse of `sepcat ++ "]"`. -/
def decCellSeq : Nat → List Char → Option (List Cell)
  | 0, _ => none
  | fuel + 1, cs =>
    (decCell cs).bind (fun p =>
      if p.2 = [']'] then some [p.1]
      else if p.2.take 2 = [',', ' '] then
        (decCellSeq fuel (p.2.drop 2)).map (fun l => p.1 :: l)
      else none)

/-- Decoder for a serialized row; full inverse of `encRow`. -/
def decRow : List Char → Option (List Cell)
  | '[' :: t => if t = [']'] then some [] else decCellSeq t.length t
  | _ => none

/-- `fix_unescaped_apostrophes`, scanning with the `in_single` flag: inside a
single-quoted literal, a lone `'` followed by a letter is doubled, a `''` pair
is kept as a unit, and any other `'` terminates the literal. -/
def fixAposAux : List Char → Bool → List Char
  | [], _ => []
  | c :: t, false => if c = '\'' then c :: fixAposAux t true else c :: fixAposAux t false
  | c :: t, true =>
    if c = '\'' then
      match t with
      | [] => ['\'']
      | d :: t' =>
        if d = '\'' then '\'' :: '\'' :: fixAposAux t' true
        else if d.isAlpha then '\'' :: '\'' :: fixAposAux (d :: t') true
        else '\'' :: fixAposAux (d :: t') false
    else c :: fixAposAux t true

/-- `fix_unescaped_apostrophes` from `verify_verieql_cases.py`. -/
def fix_unescaped_apostrophes (s : List Char) : List Char := fixAposAux s false

/-- Checker mirroring `fixAposAux`: does the text contain a lone in-literal
apostrophe followed by a letter (i.e. one the apostrophe pass would double)? -/
def hasLoneAposAux : List Char → Bool → Bool
  | [], _ => false
  | c :: t, false => hasLoneAposAux t (c = '\'')
  | c :: t, true =>
    if c = '\'' then
      match t with
      | [] => false
      | d :: t' =>
        if d = '\'' then hasLoneAposAux t' true
        else if d.isAlpha then true
        else hasLoneAposAux (d :: t') false
    else hasLoneAposAux t true

/-- Text free of unescaped in-literal apostrophes (the apostrophe pass's
target pattern does not occur). -/
def aposFree (s : List Char) : Bool := !hasLoneAposAux s false

/-- The scanner states of `quote_hyphenated_identifiers` (`in_single`,
`in_double`, `in_line`, `in_block`, or none of them). -/
inductive ScanMode where
  | normal | single | double | line | block
deriving DecidableEq

/-- Characters that may continue a bare identifier: alphanumeric, `_` or `-`
(ASCII model of Python `isalnum`). -/
def identChar (c : Char) : Bool := c.isAlphanum || c = '_' || c = '-'

/-- The scanner of `quote_hyphenated_identifiers`: copies string literals and
comments verbatim, and wraps any bare identifier containing `-` in double
quotes. Fuel decreases once per step; every step consumes at least one
character, so fuel `> length` is always enough. -/
def qhAux : Nat → ScanMode → List Char → List Char
  | 0, _, _ => []
  | _, _, [] => []
  | fuel + 1, .line, c :: t => c :: qhAux fuel (if c = '\n' then .normal else .line) t
  | fuel + 1, .block, c :: t =>
    if c = '*' then
      match t with
      | [] => ['*']
      | d :: t' =>
        if d = '/' then '*' :: '/' :: qhAux fuel .normal t'
        else '*' :: qhAux fuel .block (d :: t')
    else c :: qhAux fuel .block t
  | fuel + 1, .single, c :: t =>
    if c = '\'' then
      match t with
      | [] => ['\'']
      | d :: t' =>
        if d = '\'' then '\'' :: '\'' :: qhAux fuel .single t'
        else '\'' :: qhAux fuel .normal (d :: t')
    else c :: qhAux fuel .single t
  | fuel + 1, .double, c :: t =>
    if c = '"' then
      match t with
      | [] => ['"']
      | d :: t' =>
        if d = '"' then '"' :: '"' :: qhAux fuel .double t'
        else '"' :: qhAux fuel .normal (d :: t')
    else c :: qhAux fuel .double t
  | fuel + 1, .normal, c :: t =>
    if c = '-' then
      match t with
      | [] => ['-']
      | d :: t' =>
        if d = '-' then '-' :: '-' :: qhAux fuel .line t'
        else '-' :: qhAux fuel .normal (d :: t')
    else if c = '/' then
      match t with
      | [] => ['/']
      | d :: t' =>
        if d = '*' then '/' :: '*' :: qhAux fuel .block t'
        else '/' :: qhAux fuel .normal (d :: t')
    else if c = '\'' then '\'' :: qhAux fuel .single t
    else if c = '"' then '"' :: qhAux fuel .double t
    else if c.isAlpha || c = '_' then
      (if ('-' ∈ c :: t.takeWhile identChar) then
        '"' :: (c :: t.takeWhile identChar) ++ ['"']
      else c :: t.takeWhile identChar) ++ qhAux fuel .normal (t.dropWhile identChar)
    else c :: qhAux fuel .normal t

/-- `quote_hyphenated_identifiers` from `verify_verieql_cases.py`. -/
def quote_hyphenated_identifiers (s : List Char) : List Char := qhAux (s.length + 1) .normal s

/-- Checker mirroring `qhAux`: does the text contain a bare identifier with a
hyphen outside strings and comments (one the hyphen pass would quote)? -/
def hasHyphIdentAux : Nat → ScanMode → List Char → Bool
  | 0, _, _ => false
  | _, _, [] => false
  | fuel + 1, .line, c :: t => hasHyphIdentAux fuel (if c = '\n' then .normal else .line) t
  | fuel + 1, .block, c :: t =>
    if c = '*' then
      match t with
      | [] => false
      | d :: t' =>
        if d = '/' then hasHyphIdentAux fuel .normal t'
        else hasHyphIdentAux fuel .block (d :: t')
    else hasHyphIdentAux fuel .block t
  | fuel + 1, .single, c :: t =>
    if c = '\'' then
      match t with
      | [] => false
      | d :: t' =>
        if d = '\'' then hasHyphIdentAux fuel .single t'
        else hasHyphIdentAux fuel .normal (d :: t')
    else hasHyphIdentAux fuel .single t
  | fuel + 1, .double, c :: t =>
    if c = '"' then
      match t with
      | [] => false
      | d :: t' =>
        if d = '"' then hasHyphIdentAux fuel .double t'
        else hasHyphIdentAux fuel .normal (d :: t')
    else hasHyphIdentAux fuel .double t
  | fuel + 1, .normal, c :: t =>
    if c = '-' then
      match t with
      | [] => false
      | d :: t' =>
        if d = '-' then hasHyphIdentAux fuel .line t'
        else hasHyphIdentAux fuel .normal (d :: t')
    else if c = '/' then
      match t with
      | [] => false
      | d :: t' =>
        if d = '*' then hasHyphIdentAux fuel .block t'
        else hasHyphIdentAux fuel .normal (d :: t')
    else if c = '\'' then hasHyphIdentAux fuel .single t
    else if c = '"' then hasHyphIdentAux fuel .double t
    else if c.isAlpha || c = '_' then
      decide ('-' ∈ c :: t.takeWhile identChar) || hasHyphIdentAux fuel .normal (t.dropWhile identChar)
    else hasHyphIdentAux fuel .normal t

/-- Text free of hyphenated bare identifiers (outside strings and comments). -/
def hyphFree (s : List Char) : Bool := !hasHyphIdentAux (s.length + 1) .normal s

/-- Python regex word character `\w`, ASCII fragment: `[A-Za-z0-9_]`. -/
def isWordChar (c : Char) : Bool := c.isAlphanum || c = '_'

/-- Python regex whitespace `\s`, ASCII fragment. -/
def pySpace (c : Char) : Bool :=
  c = ' ' || c = '\t' || c = '\n' || c = '\r' || c.toNat = 11 || c.toNat = 12

/-- Does `rest` start with `\s+BY\b` (ignoring case)? This is the negative
lookahead of the `ORDER` regex in `quote_reserved_columns`. -/
def followedByBy (rest : List Char) : Bool :=
  decide (rest.takeWhile pySpace ≠ []) &&
  (match rest.dropWhile pySpace with
   | b :: y :: r3 =>
     b.toLower = 'b' && y.toLower = 'y' &&
     (match r3 with | [] => true | c :: _ => !isWordChar c)
   | _ => false)

/-- Semantics of the Python regex `(?<!")\bORDER\b(?!")(?!(\s+BY\b))` with
`re.IGNORECASE` at one position: `prev` is the character before the position
(`none` at the start of the string). -/
def orderMatchAt (prev : Option Char) (s : List Char) : Bool :=
  decide ((s.take 5).map Char.toLower = ['o', 'r', 'd', 'e', 'r']) &&
  (match prev with | none => true | some p => !(p = '"') && !isWordChar p) &&
  (match s.drop 5 with | [] => true | c :: _ => !(c = '"') && !isWordChar c) &&
  !followedByBy (s.drop 5)

/-- The `re.sub` scan of `quote_reserved_columns`: left to right, wrap each
match of the `ORDER` regex in double quotes (keeping its original casing),
resume after the match; otherwise copy one character. -/
def qrAux : Nat → Option Char → List Char → List Char
  | 0, _, _ => []
  | _, _, [] => []
  | fuel + 1, prev, c :: t =>
    if orderMatchAt prev (c :: t) then
      '"' :: (c :: t).take 5 ++ '"' :: qrAux fuel (some ((c :: t).getD 4 'r')) ((c :: t).drop 5)
    else c :: qrAux fuel (some c) t

/-- `quote_reserved_columns` from `verify_verieql_cases.py` (the `RESERVED`
set contains exactly `ORDER`). -/
def quote_reserved_columns (s : List Char) : List Char := qrAux (s.length + 1) none s

/-- Checker mirroring `qrAux`: does the `ORDER` regex match anywhere? -/
def hasReservedAux : Nat → Option Char → List Char → Bool
  | 0, _, _ => false
  | _, _, [] => false
  | fuel + 1, prev, c :: t => orderMatchAt prev (c :: t) || hasReservedAux fuel (some c) t

/-- Text free of bare reserved words (no match of the `ORDER` regex). -/
def reservedFree (s : List Char) : Bool := !hasReservedAux (s.length + 1) none s

/-- The composed `TextSanitizer` exactly as applied to `setup_sql` by
`run_sqlite_case`: apostrophe repair, then hyphenated-identifier quoting,
then reserved-word quoting. -/
def sanitize_setup (s : List Char) : List Char :=
  quote_reserved_columns (quote_hyphenated_identifiers (fix_unescaped_apostrophes s))

/-- Collect a line-comment region: everything up to and including the first
newline (or to the end of input). -/
def grabLine : List Char → List Char × List Char
  | [] => ([], [])
  | c :: t => if c = '\n' then ([c], t) else ((grabLine t).1.cons c, (grabLine t).2)

/-- Collect a block-comment region: everything up to and including the first
`*/` (or to the end of input). -/
def grabBlock : List Char → List Char × List Char
  | [] => ([], [])
  | c :: t =>
    if c = '*' then
      match t with
      | [] => (['*'], [])
      | d :: t' =>
        if d = '/' then (['*', '/'], t')
        else ('*' :: (grabBlock (d :: t')).1, (grabBlock (d :: t')).2)
    else (c :: (grabBlock t).1, (grabBlock t).2)

/-- Collect a single-quoted literal body after the opening quote, skipping
escaped `''` pairs, up to and including the closing quote. -/
def grabSingle : List Char → List Char × List Char
  | [] => ([], [])
  | c :: t =>
    if c = '\'' then
      match t with
      | [] => (['\''], [])
      | d :: t' =>
        if d = '\'' then ('\'' :: '\'' :: (grabSingle t').1, (grabSingle t').2)
        else (['\''], d :: t')
    else (c :: (grabSingle t).1, (grabSingle t).2)

/-- Collect a double-quoted identifier body after the opening quote, skipping
escaped `""` pairs, up to and including the closing quote. -/
def grabDouble : List Char → List Char × List Char
  | [] => ([], [])
  | c :: t =>
    if c = '"' then
      match t with
      | [] => (['"'], [])
      | d :: t' =>
        if d = '"' then ('"' :: '"' :: (grabDouble t').1, (grabDouble t').2)
        else (['"'], d :: t')
    else (c :: (grabDouble t).1, (grabDouble t).2)

/-- Decomposition of a text into regions by the scanner's state machine:
string literals, quoted identifiers and comments become their own segments
(delimiters included), everything else yields `normal` segments. The
concatenation of the segments is the original text. -/
def segsAux : Nat → List Char → List (ScanMode × List Char)
  | 0, _ => []
  | _, [] => []
  | fuel + 1, c :: t =>
    if c = '-' then
      match t with
      | [] => [(.normal, ['-'])]
      | d :: t' =>
        if d = '-' then
          (.line, '-' :: '-' :: (grabLine t').1) :: segsAux fuel (grabLine t').2
        else (.normal, ['-']) :: segsAux fuel (d :: t')
    else if c = '/' then
      match t with
      | [] => [(.normal, ['/'])]
      | d :: t' =>
        if d = '*' then
          (.block, '/' :: '*' :: (grabBlock t').1) :: segsAux fuel (grabBlock t').2
        else (.normal, ['/']) :: segsAux fuel (d :: t')
    else if c = '\'' then (.single, '\'' :: (grabSingle t).1) :: segsAux fuel (grabSingle t).2
    else if c = '"' then (.double, '"' :: (grabDouble t).1) :: segsAux fuel (grabDouble t).2
    else if c.isAlpha || c = '_' then
      (.normal, c :: t.takeWhile identChar) :: segsAux fuel (t.dropWhile identChar)
    else (.normal, [c]) :: segsAux fuel t

/-- Region decomposition of a text (see `segsAux`). -/
def segments (s : List Char) : List (ScanMode × List Char) := segsAux (s.length + 1) s

/-- Per-segment action of the hyphen pass: `normal` segments are processed,
string/identifier/comment segments are kept verbatim. -/
def qhSegProc (seg : ScanMode × List Char) : List Char :=
  if seg.1 = .normal then quote_hyphenated_identifiers seg.2 else seg.2

/-- One position of the `\border\s+by\b` regex of `has_order_by`
(`re.IGNORECASE`). -/
def orderByMatchAt (prev : Option Char) (s : List Char) : Bool :=
  (match prev with | none => true | some p => !isWordChar p) &&
  decide ((s.take 5).map Char.toLower = ['o', 'r', 'd', 'e', 'r']) &&
  decide ((s.drop 5).takeWhile pySpace ≠ []) &&
  (match (s.drop 5).dropWhile pySpace with
   | b :: y :: r3 =>
     b.toLower = 'b' && y.toLower = 'y' &&
     (match r3 with | [] => true | c :: _ => !isWordChar c)
   | _ => false)

/-- `re.search` scan for `has_order_by`. -/
def hasOrderByAux : Nat → Option Char → List Char → Bool
  | 0, _, _ => false
  | _, _, [] => false
  | fuel + 1, prev, c :: t => orderByMatchAt prev (c :: t) || hasOrderByAux fuel (some c) t

/-- `has_order_by` from `verify_verieql_cases.py`. -/
def has_order_by (s : List Char) : Bool := hasOrderByAux (s.length + 1) none s

/-- Abstraction of the `sqlite3` connection: `executescript` and `execute`
may mutate the database and may raise (the `Except.error` carries `str(e)`). -/
structure SqlEngine (DB : Type) where
  init : DB
  executescript : DB → List Char → Except (List Char) Unit × DB
  execute : DB → List Char → Except (List Char) ResultSet × DB

/-- The throughput PRAGMA script executed first by `run_sqlite_case`. -/
def pragmaScript : List Char :=
  ("\n            PRAGMA foreign_keys = OFF;\n            PRAGMA journal_mode = OFF;\n            PRAGMA synchronous = OFF;\n            PRAGMA temp_store = MEMORY;\n            PRAGMA cache_size = -100000;\n        ").data

/-- The summary dict built by `run_sqlite_case` (`_q1_full`/`_q2_full` are
`q1_full`/`q2_full` here; a leading underscore is avoided in Lean). -/
structure CaseOut where
  equal : String
  q1_ok : Bool
  q2_ok : Bool
  q1_error : List Char
  q2_error : List Char
  q1_columns : Option (List String)
  q2_columns : Option (List String)
  q1_rowcount : Option Nat
  q2_rowcount : Option Nat
  q1_rows_sample : Option (List Row)
  q2_rows_sample : Option (List Row)
  q1_scalar : Option Cell
  q2_scalar : Option Cell
  q1_full : Option ResultSet
  q2_full : Option ResultSet
  generated_sql : List Char
  gold_sql : List Char
  order_sensitive : Bool
  generated_sql_has_order_by : Bool
  gold_sql_has_order_by : Bool
deriving DecidableEq

/-- The initial `out` dict of `run_sqlite_case` (before any execution). -/
def initialCaseOut (q1 q2 : List Char) (order_sensitive : Bool) : CaseOut :=
  { equal := "Error", q1_ok := false, q2_ok := false, q1_error := [], q2_error := [],
    q1_columns := none, q2_columns := none, q1_rowcount := none, q2_rowcount := none,
    q1_rows_sample := none, q2_rows_sample := none, q1_scalar := none, q2_scalar := none,
    q1_full := none, q2_full := none, generated_sql := q1, gold_sql := q2,
    order_sensitive := order_sensitive,
    generated_sql_has_order_by := has_order_by q1,
    gold_sql_has_order_by := has_order_by q2 }

/-- Field updates performed on `out` when `q1` succeeds / fails. -/
def applyQ1 (out : CaseOut) (r : Except (List Char) ResultSet) : CaseOut :=
  match r with
  | .ok res1 =>
    { out with
      q1_ok := true
      q1_columns := some res1.columns
      q1_rowcount := some res1.rows.length
      q1_rows_sample := some (res1.rows.take 10)
      q1_scalar := maybe_scalar res1
      q1_full := some res1 }
  | .error e => { out with q1_error := e }

/-- Field updates performed on `out` when `q2` succeeds / fails. -/
def applyQ2 (out : CaseOut) (r : Except (List Char) ResultSet) : CaseOut :=
  match r with
  | .ok res2 =>
    { out with
      q2_ok := true
      q2_columns := some res2.columns
      q2_rowcount := some res2.rows.length
      q2_rows_sample := some (res2.rows.take 10)
      q2_scalar := maybe_scalar res2
      q2_full := some res2 }
  | .error e => { out with q2_error := e }

/-- `run_sqlite_case` from `verify_verieql_cases.py`, over an abstract engine:
run the PRAGMA script and the sanitized setup script (failure of either is
fatal, recorded as `setup_error` in `q1_error`); then run `q1` and `q2`
independently; `equal` is `"True"`/`"False"` per `results_equal` only when
both queries succeeded, and stays `"Error"` otherwise. -/
def run_sqlite_case {DB : Type} (E : SqlEngine DB) (setup_sql q1 q2 : List Char)
    (order_sensitive : Bool) : CaseOut :=
  let out0 := initialCaseOut q1 q2 order_sensitive
  match E.executescript E.init pragmaScript with
  | (.error e, _) => { out0 with q1_error := ("setup_error: ").data ++ e }
  | (.ok _, db1) =>
    match E.executescript db1 (sanitize_setup setup_sql) with
    | (.error e, _) => { out0 with q1_error := ("setup_error: ").data ++ e }
    | (.ok _, db2) =>
      let r1p := E.execute db2 q1
      let out1 := applyQ1 out0 r1p.1
      let r2p := E.execute r1p.2 q2
      let out2 := applyQ2 out1 r2p.1
      match r1p.1, r2p.1 with
      | .ok res1, .ok res2 =>
        { out2 with equal := if results_equal res1 res2 order_sensitive then "True" else "False" }
      | _, _ => { out2 with equal := "Error" }

/-- Reference executor identical to `run_sqlite_case` except that the setup
script is executed exactly as given (no sanitizer applied); used to state
which strings reach the engine. -/
def run_sqlite_case_raw {DB : Type} (E : SqlEngine DB) (setup_sql q1 q2 : List Char)
    (order_sensitive : Bool) : CaseOut :=
  let out0 := initialCaseOut q1 q2 order_sensitive
  match E.executescript E.init pragmaScript with
  | (.error e, _) => { out0 with q1_error := ("setup_error: ").data ++ e }
  | (.ok _, db1) =>
    match E.executescript db1 setup_sql with
    | (.error e, _) => { out0 with q1_error := ("setup_error: ").data ++ e }
    | (.ok _, db2) =>
      let r1p := E.execute db2 q1
      let out1 := applyQ1 out0 r1p.1
      let r2p := E.execute r1p.2 q2
      let out2 := applyQ2 out1 r2p.1
      match r1p.1, r2p.1 with
      | .ok res1, .ok res2 =>
        { out2 with equal := if results_equal res1 res2 order_sensitive then "True" else "False" }
      | _, _ => { out2 with equal := "Error" }

/-- Find the first occurrence of `sep`: returns the part before it and the
part after it, or `none` when `sep` does not occur. -/
def findSep (sep : List Char) : List Char → Option (List Char × List Char)
  | [] => if sep = [] then some ([], []) else none
  | c :: t =>
    if sep.isPrefixOf (c :: t) then some ([], (c :: t).drop sep.length)
    else (findSep sep t).map (fun p => (c :: p.1, p.2))

/-- Python's `sep in s` substring test. -/
def containsSub (sep s : List Char) : Bool := (findSep sep s).isSome

/-- Python's `s.split(sep)` (unbounded); fuel `≥ length` is always enough. -/
def splitFull : Nat → List Char → List Char → List (List Char)
  | 0, _, s => [s]
  | fuel + 1, sep, s =>
    match findSep sep s with
    | none => [s]
    | some (pre, post) => pre :: splitFull fuel sep post

/-- Python's `s.strip()` (ASCII whitespace model). -/
def pyStrip (s : List Char) : List Char :=
  ((s.dropWhile pySpace).reverse.dropWhile pySpace).reverse

/-- The `sql1` marker line. -/
def SQL1_MARK : List Char := ("-- ----------sql1------------").data

/-- The `sql2` marker line. -/
def SQL2_MARK : List Char := ("-- ----------sql2------------").data

/-- The block delimiter of `parse_block_text`. -/
def blockDelim : List Char := ("~~~~~~~~~~~").data

/-- `strip_leading_comment_lines`: strip, drop leading lines whose stripped
form starts with `--`, rejoin with newlines, strip again. -/
def strip_leading_comment_lines (s : List Char) : List Char :=
  let lines := splitFull ((pyStrip s).length + 1) ['\n'] (pyStrip s)
  pyStrip (List.intercalate ['\n'] (lines.dropWhile (fun ln => ['-', '-'].isPrefixOf (pyStrip ln))))

/-- One parsed counterexample block. -/
structure Block where
  setup_sql : List Char
  sql1 : List Char
  sql2 : List Char
deriving DecidableEq

/-- Processing of one chunk by `parse_block_text`'s loop body. A chunk missing
either marker is skipped; otherwise the chunk is split at the markers; an
empty segment after trimming discards the triple. When the `sql2` marker does
not occur after the first `sql1` marker, the two-variable unpacking of
`after_sql1.split(SQL2_MARK, 1)` raises `ValueError`, modelled as `.error`. -/
def parseChunk (b : List Char) : Except String (Option Block) :=
  if ¬ containsSub SQL1_MARK b ∨ ¬ containsSub SQL2_MARK b then .ok none
  else
    match findSep SQL1_MARK b with
    | none => .ok none
    | some (pre, after1) =>
      match findSep SQL2_MARK after1 with
      | none => .error "ValueError: not enough values to unpack (expected 2, got 1)"
      | some (s1p, s2p) =>
        let setup := pyStrip pre
        let sql1 := strip_leading_comment_lines s1p
        let sql2 := strip_leading_comment_lines s2p
        if setup ≠ [] ∧ sql1 ≠ [] ∧ sql2 ≠ [] then .ok (some ⟨setup, sql1, sql2⟩)
        else .ok none

/-- `parse_block_text` from `verify_verieql_cases.py`: split on the block
delimiter (falling back to the whole stripped blob when the split yields
nothing), process each chunk, collect the triples; a `ValueError` raised by a
chunk propagates. -/
def parse_block_text (block : List Char) : Except String (List Block) :=
  let chunks0 := ((splitFull (block.length + 1) blockDelim block).map pyStrip).filter (· ≠ [])
  let chunks := if chunks0 = [] then [pyStrip block] else chunks0
  chunks.foldlM (fun acc b => (parseChunk b).map (fun ob => acc ++ ob.toList)) []

/-- One case row as assembled by `read_cases_from_block_csv`. -/
structure TaggedCase where
  bound_size : Option (List Char)
  question_id : List Char
  setup_sql : List Char
  sql1 : List Char
  sql2 : List Char
deriving DecidableEq

/-- The identifier-tagging of `read_cases_from_block_csv`: a single block
keeps `base_id`; with several blocks, block `j` (1-based) is tagged
`f"{base_id}_blk{j}"`. -/
def tag_cases (bound_size : Option (List Char)) (base_id : List Char)
    (blocks : List Block) : List TaggedCase :=
  match blocks with
  | [b] => [⟨bound_size, base_id, b.setup_sql, b.sql1, b.sql2⟩]
  | _ =>
    blocks.enum.map (fun jb =>
      ⟨bound_size, base_id ++ ("_blk").data ++ natChars (jb.1 + 1),
       jb.2.setup_sql, jb.2.sql1, jb.2.sql2⟩)

/-- Processing of one CSV row by `read_cases_from_block_csv`: parse the blob
(exceptions propagate) and tag the resulting triples. -/
def row_cases (bound_size : Option (List Char)) (base_id raw_block : List Char) :
    Except String (List TaggedCase) :=
  (parse_block_text raw_block).map (tag_cases bound_size base_id)

/-- One entry of the global `exec_result` list of `evaluation_ves.py`. -/
structure EvalResult where
  sql_idx : Nat
  ex : Nat
deriving DecidableEq

/-- `iterated_execute_sql` (result comparison only; the two fetched result
lists stand in for the cursor): binary EX flag, `1` iff the two result sets
are equal as Python `set`s. -/
def iterated_execute_sql (predicted_res ground_truth_res : List Row) : Nat :=
  if predicted_res.toFinset = ground_truth_res.toFinset then 1 else 0

/-- Outcome of the `func_timeout(...)` call wrapped by `execute_model`:
normal completion (with the two fetched result lists), `FunctionTimedOut`,
any other exception, or `KeyboardInterrupt`. -/
inductive TaskCall where
  | completed (predicted_res ground_truth_res : List Row)
  | timedOut
  | raised (e : String)
  | interrupted

/-- What `execute_model` does: return a result record, or exit the process
(`sys.exit(0)` on `KeyboardInterrupt`). -/
inductive ExecModelOutcome where
  | result (r : EvalResult)
  | exited (code : Nat)
deriving DecidableEq

/-- `execute_model` from `evaluation_ves.py`: `KeyboardInterrupt` exits the
process; a timeout or any other exception yields `ex = 0`; otherwise the
computed EX flag is returned; always carrying the caller's `idx`. -/
def execute_model (call : TaskCall) (idx : Nat) : ExecModelOutcome :=
  match call with
  | .interrupted => .exited 0
  | .timedOut => .result ⟨idx, 0⟩
  | .raised _ => .result ⟨idx, 0⟩
  | .completed p g => .result ⟨idx, iterated_execute_sql p g⟩

/-- `compute_ex` from `evaluation_ves.py`: percentage of correct queries
(rational model of Python float division). -/
def compute_ex (exec_results : List EvalResult) : ℚ :=
  ((exec_results.map (·.ex)).sum : ℚ) / (exec_results.length : ℚ) * 100

/-- The banding loop of `compute_ex_by_diff`: distribute each result into the
`simple` / `moderate` / `challenging` lists per its difficulty label. -/
def diffPartition : List (String × EvalResult) →
    List EvalResult × List EvalResult × List EvalResult
  | [] => ([], [], [])
  | (d, r) :: t =>
    let p := diffPartition t
    (if d = "simple" then r :: p.1 else p.1,
     if d = "moderate" then r :: p.2.1 else p.2.1,
     if d = "challenging" then r :: p.2.2 else p.2.2)

/-- `compute_ex_by_diff` from `evaluation_ves.py` (labelled path): per-band
EX for the three fixed bands (`0` for an empty band), overall EX, and the
count list. `contents` is the parallel list of difficulty labels. -/
def compute_ex_by_diff (exec_results : List EvalResult) (contents : List String) :
    ℚ × ℚ × ℚ × ℚ × List Nat :=
  let p := diffPartition (contents.zip exec_results)
  ((if p.1 ≠ [] then compute_ex p.1 else 0),
   (if p.2.1 ≠ [] then compute_ex p.2.1 else 0),
   (if p.2.2 ≠ [] then compute_ex p.2.2 else 0),
   compute_ex exec_results,
   [p.1.length, p.2.1.length, p.2.2.length, exec_results.length])

/-- Spec-side accuracy formula: `(sum of flags / count) × 100`. -/
def accuracyPercent (flags : List Nat) : ℚ := ((flags.sum : ℚ) / (flags.length : ℚ)) * 100

/-- Spec-side band restriction: the results whose parallel label equals
`label`. -/
def bandResults (label : String) (contents : List String)
    (exec_results : List EvalResult) : List EvalResult :=
  ((contents.zip exec_results).filter (fun p => p.1 = label)).map Prod.snd

/-- A trivially succeeding engine over a unit database, used to instantiate
theorems about `run_sqlite_case` at concrete inputs. -/
def unitOkEngine : SqlEngine Unit :=
  { init := ()
    executescript := fun _ _ => (.ok (), ())
    execute := fun _ _ => (.ok ⟨["c"], [[.intv 1]]⟩, ()) }

/-- An engine whose PRAGMA script succeeds but whose setup script raises
`boom`, used to instantiate the setup-failure theorems. -/
def unitSetupFailEngine : SqlEngine Unit :=
  { init := ()
    executescript := fun _ scr =>
      if scr = pragmaScript then (.ok (), ()) else (.error ("boom").data, ())
    execute := fun _ _ => (.ok ⟨[], []⟩, ()) }

/-- An engine where the first query succeeds and the second raises, used to
instantiate the verdict theorems on the error path. -/
def unitQ2FailEngine : SqlEngine Unit :=
  { init := ()
    executescript := fun _ _ => (.ok (), ())
    execute := fun _ q =>
      if q = ("Q2").data then (.error ("bad q2").data, ()) else (.ok ⟨["c"], [[.intv 1]]⟩, ()) }

theorem isDigitCh_digitChar {x : Nat} (h : x < 10) : isDigitCh (Nat.digitChar x) = true := by
  interval_cases x <;> decide

theorem toNat_digitChar {x : Nat} (h : x < 10) : (Nat.digitChar x).toNat = 48 + x := by
  interval_cases x <;> decide

theorem hexDigitVal_digitChar {x : Nat} (h : x < 16) : hexDigitVal (Nat.digitChar x) = x := by
  interval_cases x <;> decide

theorem char_eq_of_toNat {c : Char} {m : Nat} (h : c.toNat = m) : c = Char.ofNat m := by
  rw [← h, Char.ofNat_toNat]

theorem length_le_length_escape (s : List Char) : s.length ≤ (escape s).length := by
  induction s with
  | nil => simp [escape]
  | cons c t ih =>
    have h1 : 1 ≤ (escChar c).length := by
      unfold escChar; split_ifs <;> simp
    simp only [escape, List.map_cons, List.flatten_cons, List.length_append, List.length_cons]
    simp only [escape] at ih
    omega

theorem decEsc_escChar {c : Char} (rest : List Char)
    (h : c = '"' ∨ c = '\\' ∨ c.toNat < 32) :
    decEsc ((escChar c).drop 1 ++ rest) = some (c, rest) ∧ (escChar c).take 1 = ['\\'] := by
  rcases h with h | h | h
  · subst h; constructor <;> rfl
  · subst h; constructor <;> rfl
  · by_cases h3 : c = '\n'
    · subst h3; constructor <;> rfl
    · by_cases h4 : c = '\t'
      · subst h4; constructor <;> rfl
      · by_cases h5 : c = '\r'
        · subst h5; constructor <;> rfl
        · by_cases h6 : c.toNat = 8
          · rw [char_eq_of_toNat h6]; constructor <;> rfl
          · by_cases h7 : c.toNat = 12
            · rw [char_eq_of_toNat h7]; constructor <;> rfl
            · have h1 : ¬ c = '"' := fun hh => by subst hh; exact absurd h (by decide)
              have h2 : ¬ c = '\\' := fun hh => by subst hh; exact absurd h (by decide)
              have hd1 : hexDigitVal (Nat.digitChar (c.toNat / 16)) = c.toNat / 16 :=
                hexDigitVal_digitChar (by omega)
              have hd2 : hexDigitVal (Nat.digitChar (c.toNat % 16)) = c.toNat % 16 :=
                hexDigitVal_digitChar (by omega)
              have hesc : escChar c =
                  ['\\', 'u', '0', '0', Nat.digitChar (c.toNat / 16), Nat.digitChar (c.toNat % 16)] := by
                unfold escChar
                simp [h1, h2, h3, h4, h5, h6, h7, h]
              rw [hesc]
              refine ⟨?_, rfl⟩
              have hkey : decEsc ('u' :: '0' :: '0' :: Nat.digitChar (c.toNat / 16) ::
                  Nat.digitChar (c.toNat % 16) :: rest) =
                  some (Char.ofNat (4096 * hexDigitVal '0' + 256 * hexDigitVal '0' +
                    16 * hexDigitVal (Nat.digitChar (c.toNat / 16)) +
                    hexDigitVal (Nat.digitChar (c.toNat % 16))), rest) := by
                simp [decEsc, show hexDigitVal '0' < 16 from by decide,
                  show hexDigitVal (Nat.digitChar (c.toNat / 16)) < 16 from by omega,
                  show hexDigitVal (Nat.digitChar (c.toNat % 16)) < 16 from by omega]
              simp only [List.drop, List.cons_append, List.nil_append, hkey,
                Option.some.injEq, Prod.mk.injEq]
              refine ⟨?_, trivial⟩
              rw [hd1, hd2, show hexDigitVal '0' = 0 from by decide]
              have hx : 4096 * 0 + 256 * 0 + 16 * (c.toNat / 16) + c.toNat % 16 = c.toNat := by
                omega
              rw [hx, Char.ofNat_toNat]

theorem decStrAux_escape (s : List Char) : ∀ (fuel : Nat) (rest : List Char),
    s.length + 1 ≤ fuel → decStrAux fuel (escape s ++ '"' :: rest) = some (s, rest) := by
  induction s with
  | nil =>
    intro fuel rest h
    match fuel, h with
    | fuel + 1, _ =>
      show decStrAux (fuel + 1) ('"' :: rest) = some ([], rest)
      rw [decStrAux]
      simp
  | cons c t ih =>
    intro fuel rest h
    match fuel, h with
    | fuel + 1, h =>
      have hfuel : t.length + 1 ≤ fuel := by simp at h; omega
      have hstep : escape (c :: t) = escChar c ++ escape t := by simp [escape]
      rw [hstep, List.append_assoc]
      by_cases hspec : c = '"' ∨ c = '\\' ∨ c.toNat < 32
      · obtain ⟨hdec, htake⟩ := decEsc_escChar (escape t ++ '"' :: rest) hspec
        have hsplit : escChar c = '\\' :: (escChar c).drop 1 := by
          rw [← List.take_append_drop 1 (escChar c), htake]
          simp
        rw [hsplit, List.cons_append, decStrAux]
        rw [if_neg (by decide), if_pos rfl, hdec]
        simp only [Option.some_bind]
        rw [ih fuel rest hfuel]
        rfl
      · push_neg at hspec
        obtain ⟨h1, h2, h8⟩ := hspec
        have h3 : ¬ c = '\n' := fun hh => by subst hh; exact absurd h8 (by decide)
        have h4 : ¬ c = '\t' := fun hh => by subst hh; exact absurd h8 (by decide)
        have h5 : ¬ c = '\r' := fun hh => by subst hh; exact absurd h8 (by decide)
        have h6 : ¬ c.toNat = 8 := fun hh => by
          rw [char_eq_of_toNat hh] at h8; exact absurd h8 (by decide)
        have h7 : ¬ c.toNat = 12 := fun hh => by
          rw [char_eq_of_toNat hh] at h8; exact absurd h8 (by decide)
        have hesc : escChar c = [c] := by
          unfold escChar
          simp [h1, h2, h3, h4, h5, h6, h7, h8]
        rw [hesc, List.cons_append, List.nil_append, decStrAux]
        rw [if_neg h1, if_neg h2, ih fuel rest hfuel]
        rfl

theorem decNatAux_digits : ∀ (ds : List Char) (fuel : Nat) (rest : List Char) (a : Nat),
    ds.length ≤ fuel → (∀ c ∈ ds, isDigitCh c = true) →
    (∀ c, rest.head? = some c → isDigitCh c = false) →
    decNatAux fuel (ds ++ rest) a =
      (ds.foldl (fun x c => 10 * x + (c.toNat - 48)) a, rest) := by
  intro ds
  induction ds with
  | nil =>
    intro fuel rest a _ _ hrest
    cases rest with
    | nil => cases fuel <;> rfl
    | cons c t =>
      cases fuel with
      | zero => rfl
      | succ fuel =>
        have : isDigitCh c = false := hrest c rfl
        simp only [List.nil_append, List.foldl_nil, decNatAux, this]
        simp
  | cons d ds ih =>
    intro fuel rest a hlen hdig hrest
    match fuel, hlen with
    | fuel + 1, hlen =>
      have hd : isDigitCh d = true := hdig d (by simp)
      simp only [List.cons_append, decNatAux, hd, if_pos, List.foldl_cons]
      exact ih fuel rest _ (by simpa using hlen) (fun c hc => hdig c (by simp [hc])) hrest

theorem natCharsAux_digits : ∀ (fuel n : Nat) (c : Char), c ∈ natCharsAux fuel n →
    isDigitCh c = true := by
  intro fuel
  induction fuel with
  | zero => intro n c hc; simp [natCharsAux] at hc
  | succ fuel ih =>
    intro n c hc
    by_cases hn : n = 0
    · simp [natCharsAux, hn] at hc
    · rw [natCharsAux, if_neg hn] at hc
      rcases List.mem_append.mp hc with h | h
      · exact ih _ _ h
      · simp at h
        rw [h]
        exact isDigitCh_digitChar (Nat.mod_lt _ (by omega))

theorem natCharsAux_foldl : ∀ (fuel : Nat) (n : Nat), n ≤ fuel →
    (natCharsAux fuel n).foldl (fun x c => 10 * x + (c.toNat - 48)) 0 = n := by
  intro fuel
  induction fuel with
  | zero => intro n hn; interval_cases n; rfl
  | succ fuel ih =>
    intro n hn
    by_cases hn0 : n = 0
    · simp [natCharsAux, hn0]
    · rw [natCharsAux, if_neg hn0, List.foldl_append]
      have hrec : n / 10 ≤ fuel := by omega
      rw [ih _ hrec]
      simp only [List.foldl_cons, List.foldl_nil]
      rw [toNat_digitChar (Nat.mod_lt _ (by omega))]
      omega

theorem natChars_ne_nil (n : Nat) : natChars n ≠ [] := by
  unfold natChars
  by_cases hn : n = 0
  · simp [hn]
  · rw [if_neg hn]
    match n, hn with
    | n + 1, _ =>
      rw [natCharsAux, if_neg (by omega)]
      simp

theorem natChars_digits {n : Nat} {c : Char} (hc : c ∈ natChars n) : isDigitCh c = true := by
  unfold natChars at hc
  by_cases hn : n = 0
  · simp [hn] at hc; rw [hc]; decide
  · rw [if_neg hn] at hc; exact natCharsAux_digits _ _ _ hc

theorem natChars_foldl (n : Nat) :
    (natChars n).foldl (fun x c => 10 * x + (c.toNat - 48)) 0 = n := by
  unfold natChars
  by_cases hn : n = 0
  · simp [hn]
  · rw [if_neg hn]; exact natCharsAux_foldl n n le_rfl

theorem decNat_natChars (n : Nat) (rest : List Char)
    (hrest : ∀ c, rest.head? = some c → isDigitCh c = false) :
    ∃ d ds, natChars n = d :: ds ∧ isDigitCh d = true ∧
      decNatAux (ds ++ rest).length (ds ++ rest) (d.toNat - 48) = (n, rest) := by
  obtain ⟨d, ds, hcons⟩ : ∃ d ds, natChars n = d :: ds := by
    cases hnc : natChars n with
    | nil => exact absurd hnc (natChars_ne_nil n)
    | cons d ds => exact ⟨d, ds, rfl⟩
  have hd : isDigitCh d = true := natChars_digits (by rw [hcons]; simp)
  have hds : ∀ c ∈ ds, isDigitCh c = true := fun c hc =>
    natChars_digits (by rw [hcons]; simp [hc])
  refine ⟨d, ds, hcons, hd, ?_⟩
  rw [decNatAux_digits ds _ rest _ (by simp) hds hrest]
  have hfold := natChars_foldl n
  rw [hcons] at hfold
  simp only [List.foldl_cons] at hfold
  rw [show 10 * 0 + (d.toNat - 48) = d.toNat - 48 from by omega] at hfold
  rw [hfold]

theorem asString_data (s : String) : s.data.asString = s := rfl

theorem decCell_enc (c : Cell) (rest : List Char)
    (hrest : ∀ ch, rest.head? = some ch → isDigitCh ch = false) :
    decCell (encCell c ++ rest) = some (c, rest) := by
  cases c with
  | null =>
    show decCell ('n' :: 'u' :: 'l' :: 'l' :: rest) = _
    rw [decCell]
    simp
  | strv s =>
    show decCell ('"' :: (escape s.data ++ ['"']) ++ rest) = _
    rw [List.cons_append, List.append_assoc, List.cons_append, List.nil_append, decCell]
    rw [if_neg (by decide), if_pos rfl]
    rw [decStrAux_escape s.data _ rest ?side]
    case side =>
      have h1 := length_le_length_escape s.data
      have h2 : s.data.length = s.length := rfl
      simp only [List.length_append, List.length_cons]
      omega
    simp [asString_data]
  | intv i =>
    cases i with
    | ofNat n =>
      show decCell (natChars n ++ rest) = _
      obtain ⟨d, ds, hcons, hd, hdec⟩ := decNat_natChars n rest hrest
      rw [hcons, List.cons_append, decCell]
      have hd1 : ¬ d = 'n' := fun hh => by rw [hh] at hd; exact absurd hd (by decide)
      have hd2 : ¬ d = '"' := fun hh => by rw [hh] at hd; exact absurd hd (by decide)
      have hd3 : ¬ d = '-' := fun hh => by rw [hh] at hd; exact absurd hd (by decide)
      rw [if_neg hd1, if_neg hd2, if_neg hd3, if_pos hd]
      simp only [hdec, Int.ofNat_eq_coe]
    | negSucc n =>
      show decCell ('-' :: natChars (n + 1) ++ rest) = _
      obtain ⟨d, ds, hcons, hd, hdec⟩ := decNat_natChars (n + 1) rest hrest
      rw [List.cons_append, hcons, List.cons_append, decCell]
      rw [if_neg (by decide), if_neg (by decide), if_pos rfl]
      simp only [List.head?_cons, Option.some_bind, hd, if_pos, List.tail_cons, hdec]
      have heq : (-((n + 1 : Nat) : Int)) = Int.negSucc n := by
        rw [Int.negSucc_eq]
        push_cast
        ring
      rw [heq]

theorem encCell_ne_nil (c : Cell) : encCell c ≠ [] := by
  cases c with
  | null => simp [encCell]
  | strv s => simp [encCell]
  | intv i =>
    cases i with
    | ofNat n => exact natChars_ne_nil n
    | negSucc n => simp [encCell, intChars]

theorem length_le_sepcat (r : List Cell) : r.length ≤ (sepcat r).length + 1 := by
  induction r with
  | nil => simp
  | cons c t ih =>
    cases t with
    | nil => simp [sepcat]
    | cons c' t' =>
      rw [sepcat]
      have h1 : 1 ≤ (encCell c).length := by
        cases henc : encCell c with
        | nil => exact absurd henc (encCell_ne_nil c)
        | cons x xs => simp
      simp only [List.length_append, List.length_cons] at *
      omega

theorem sepcat_ne_nil {r : List Cell} (hr : r ≠ []) : sepcat r ≠ [] := by
  cases r with
  | nil => exact absurd rfl hr
  | cons c t =>
    cases t with
    | nil => exact encCell_ne_nil c
    | cons c' t' =>
      rw [sepcat]
      intro hh
      exact encCell_ne_nil c (List.append_eq_nil.mp hh).1

theorem decCellSeq_enc (r : List Cell) (hr : r ≠ []) : ∀ (fuel : Nat), r.length ≤ fuel →
    decCellSeq fuel (sepcat r ++ [']']) = some r := by
  induction r with
  | nil => exact absurd rfl hr
  | cons c t ih =>
    intro fuel hfuel
    match fuel, hfuel with
    | fuel + 1, hfuel =>
      cases t with
      | nil =>
        rw [sepcat, decCellSeq]
        rw [decCell_enc c [']'] (by intro ch hch; simp at hch; subst hch; decide)]
        simp
      | cons c' t' =>
        rw [sepcat, List.append_assoc, List.cons_append, List.cons_append, decCellSeq]
        rw [decCell_enc c (',' :: ' ' :: (sepcat (c' :: t') ++ [']']))
          (by intro ch hch; simp at hch; subst hch; decide)]
        simp only [Option.some_bind]
        rw [if_neg (by simp), if_pos (by simp)]
        simp only [List.drop_succ_cons, List.drop_zero]
        rw [ih (by simp) fuel (by simpa using hfuel)]
        rfl

theorem decRow_enc (r : List Cell) : decRow (encRow r) = some r := by
  cases r with
  | nil => rfl
  | cons c t =>
    show decRow ('[' :: (sepcat (c :: t) ++ [']'])) = _
    rw [decRow]
    have hne : sepcat (c :: t) ≠ [] := sepcat_ne_nil (by simp)
    rw [if_neg ?hcond]
    case hcond =>
      intro hh
      have hlen := congrArg List.length hh
      simp only [List.length_append, List.length_cons, List.length_nil] at hlen
      exact hne (List.length_eq_zero.mp (by omega))
    have hfuel2 : (c :: t).length ≤ (sepcat (c :: t) ++ [']']).length := by
      have h3 := length_le_sepcat (c :: t)
      simp only [List.length_cons] at h3
      simp only [List.length_append, List.length_cons, List.length_nil]
      omega
    rw [decCellSeq_enc (c :: t) (by simp) _ hfuel2]

theorem encRow_injective : Function.Injective encRow := by
  intro a b hab
  have ha := decRow_enc a
  have hb := decRow_enc b
  rw [hab, hb] at ha
  exact ((Option.some.injEq _ _).mp ha).symm

theorem data_asString (l : List Char) : (List.asString l).data = l := rfl

theorem jsonRow_injective : Function.Injective jsonRow := by
  intro a b hab
  apply encRow_injective
  have h2 := congrArg String.data hab
  simpa [jsonRow, data_asString] using h2

theorem as_bag_eq_iff (A B : List Row) :
    as_bag A = as_bag B ↔ (A : Multiset Row) = (B : Multiset Row) := by
  unfold as_bag
  rw [← Multiset.map_coe, ← Multiset.map_coe]
  exact ⟨fun h => Multiset.map_injective jsonRow_injective h, fun h => by rw [h]⟩

/-- C2: with identical column sequences and identical row multisets but different
row order, the order-insensitive comparison returns true and the order-sensitive
comparison returns false; and the order-insensitive comparison returns true
exactly when the column-name sequences match and the row multisets match. -/
theorem results_equal_order_spec (r1 r2 : ResultSet) :
    (r1.columns = r2.columns → (r1.rows : Multiset Row) = (r2.rows : Multiset Row) →
      r1.rows ≠ r2.rows →
      results_equal r1 r2 false = true ∧ results_equal r1 r2 true = false) ∧
    (results_equal r1 r2 false = true ↔
      r1.columns = r2.columns ∧ (r1.rows : Multiset Row) = (r2.rows : Multiset Row)) := by
  constructor
  · intro hc hm hs
    constructor
    · unfold results_equal
      simp [hc, (as_bag_eq_iff _ _).mpr hm]
    · unfold results_equal
      simp [hc, hs]
  · unfold results_equal
    constructor
    · intro h
      by_cases hc : r1.columns = r2.columns
      · simp [hc] at h
        exact ⟨hc, (as_bag_eq_iff _ _).mp h⟩
      · simp [hc] at h
    · rintro ⟨hc, hm⟩
      simp [hc, (as_bag_eq_iff _ _).mpr hm]

/-- Witness for C2 at a concrete pair of result sets. -/
theorem results_equal_order_spec_witness :
    results_equal ⟨["x"], [[.intv 1], [.intv 2]]⟩ ⟨["x"], [[.intv 2], [.intv 1]]⟩ false = true ∧
    results_equal ⟨["x"], [[.intv 1], [.intv 2]]⟩ ⟨["x"], [[.intv 2], [.intv 1]]⟩ true = false :=
  (results_equal_order_spec ⟨["x"], [[.intv 1], [.intv 2]]⟩ ⟨["x"], [[.intv 2], [.intv 1]]⟩).1
    (by decide) (by decide) (by decide)

/-- C8: a timed-out task and a task failing with any other exception both
yield a normal result record with `ex = 0` carrying the task's index; every
non-interrupt outcome yields a normal result record carrying the index (no
exception propagates, the timeout is never re-raised). -/
theorem execute_model_failure_spec (idx : Nat) (e : String) :
    execute_model .timedOut idx = .result ⟨idx, 0⟩ ∧
    execute_model (.raised e) idx = .result ⟨idx, 0⟩ ∧
    (∀ call : TaskCall, call ≠ .interrupted → ∃ ex, execute_model call idx = .result ⟨idx, ex⟩) := by
  refine ⟨rfl, rfl, ?_⟩
  intro call hcall
  cases call with
  | completed p g => exact ⟨_, rfl⟩
  | timedOut => exact ⟨0, rfl⟩
  | raised e' => exact ⟨0, rfl⟩
  | interrupted => exact absurd rfl hcall

/-- Witness for C8 at concrete outcomes. -/
theorem execute_model_failure_spec_witness :
    execute_model .timedOut 3 = .result ⟨3, 0⟩ ∧
    execute_model (.raised "boom") 3 = .result ⟨3, 0⟩ ∧
    (∃ ex, execute_model (.completed [] []) 3 = .result ⟨3, ex⟩) :=
  ⟨(execute_model_failure_spec 3 "boom").1, (execute_model_failure_spec 3 "boom").2.1,
   (execute_model_failure_spec 3 "boom").2.2 (.completed [] [])
     (fun h => TaskCall.noConfusion h)⟩

theorem diffPartition_eq_filter (l : List (String × EvalResult)) :
    diffPartition l = (((l.filter (fun p => p.1 = "simple")).map Prod.snd),
      ((l.filter (fun p => p.1 = "moderate")).map Prod.snd),
      ((l.filter (fun p => p.1 = "challenging")).map Prod.snd)) := by
  induction l with
  | nil => rfl
  | cons p t ih =>
    rcases p with ⟨d, r⟩
    by_cases h1 : d = "simple"
    · subst h1; simp [diffPartition, ih, List.filter_cons]
    · by_cases h2 : d = "moderate"
      · subst h2; simp [diffPartition, ih, List.filter_cons]
      · by_cases h3 : d = "challenging"
        · subst h3; simp [diffPartition, ih, List.filter_cons]
        · simp [diffPartition, ih, List.filter_cons, h1, h2, h3]

/-- C9: the aggregator computes overall accuracy as `(sum of flags / count) ×
100` and per-band accuracy by the same formula restricted to each of the
bands `simple`, `moderate`, `challenging`, reporting an empty band as `0`. -/
theorem compute_ex_by_diff_spec (exec_results : List EvalResult) (contents : List String)
    (hne : exec_results ≠ []) :
    compute_ex exec_results = accuracyPercent (exec_results.map (·.ex)) ∧
    (compute_ex_by_diff exec_results contents).2.2.2.1 =
      accuracyPercent (exec_results.map (·.ex)) ∧
    (compute_ex_by_diff exec_results contents).1 =
      (if bandResults "simple" contents exec_results = [] then 0
       else accuracyPercent ((bandResults "simple" contents exec_results).map (·.ex))) ∧
    (compute_ex_by_diff exec_results contents).2.1 =
      (if bandResults "moderate" contents exec_results = [] then 0
       else accuracyPercent ((bandResults "moderate" contents exec_results).map (·.ex))) ∧
    (compute_ex_by_diff exec_results contents).2.2.1 =
      (if bandResults "challenging" contents exec_results = [] then 0
       else accuracyPercent ((bandResults "challenging" contents exec_results).map (·.ex))) := by
  have hacc : ∀ l : List EvalResult, compute_ex l = accuracyPercent (l.map (·.ex)) := by
    intro l
    simp only [compute_ex, accuracyPercent, List.length_map, Nat.cast_list_sum,
      List.map_map, Function.comp_def]
  have hband : ∀ lab : String,
      (diffPartition (contents.zip exec_results)).1 = bandResults "simple" contents exec_results ∧
      (diffPartition (contents.zip exec_results)).2.1 =
        bandResults "moderate" contents exec_results ∧
      (diffPartition (contents.zip exec_results)).2.2 =
        bandResults "challenging" contents exec_results := by
    intro _
    rw [diffPartition_eq_filter]
    exact ⟨rfl, rfl, rfl⟩
  obtain ⟨hs, hm, hc⟩ := hband ""
  refine ⟨hacc _, ?_, ?_, ?_, ?_⟩
  · unfold compute_ex_by_diff
    simp only []
    exact hacc _
  · unfold compute_ex_by_diff
    simp only [hs]
    by_cases hb : bandResults "simple" contents exec_results = [] <;> simp [hb, hacc]
  · unfold compute_ex_by_diff
    simp only [hm]
    by_cases hb : bandResults "moderate" contents exec_results = [] <;> simp [hb, hacc]
  · unfold compute_ex_by_diff
    simp only [hc]
    by_cases hb : bandResults "challenging" contents exec_results = [] <;> simp [hb, hacc]

/-- Witness for C9 at a concrete result list and label list. -/
theorem compute_ex_by_diff_spec_witness :
    compute_ex [⟨0, 1⟩, ⟨1, 0⟩, ⟨2, 1⟩] =
      accuracyPercent ([⟨0, 1⟩, ⟨1, 0⟩, ⟨2, 1⟩].map (EvalResult.ex ·)) ∧
    (compute_ex_by_diff [⟨0, 1⟩, ⟨1, 0⟩, ⟨2, 1⟩] ["simple", "challenging", "simple"]).1 =
      (if bandResults "simple" ["simple", "challenging", "simple"] [⟨0, 1⟩, ⟨1, 0⟩, ⟨2, 1⟩] = [] then 0
       else accuracyPercent
         ((bandResults "simple" ["simple", "challenging", "simple"] [⟨0, 1⟩, ⟨1, 0⟩, ⟨2, 1⟩]).map (EvalResult.ex ·))) :=
  ⟨(compute_ex_by_diff_spec [⟨0, 1⟩, ⟨1, 0⟩, ⟨2, 1⟩] ["simple", "challenging", "simple"]
      (by decide)).1,
   (compute_ex_by_diff_spec [⟨0, 1⟩, ⟨1, 0⟩, ⟨2, 1⟩] ["simple", "challenging", "simple"]
      (by decide)).2.2.1⟩

theorem applyQ1_generated_sql (out : CaseOut) (r : Except (List Char) ResultSet) :
    (applyQ1 out r).generated_sql = out.generated_sql := by
  cases r <;> rfl

theorem applyQ2_generated_sql (out : CaseOut) (r : Except (List Char) ResultSet) :
    (applyQ2 out r).generated_sql = out.generated_sql := by
  cases r <;> rfl

theorem applyQ1_gold_sql (out : CaseOut) (r : Except (List Char) ResultSet) :
    (applyQ1 out r).gold_sql = out.gold_sql := by
  cases r <;> rfl

theorem applyQ2_gold_sql (out : CaseOut) (r : Except (List Char) ResultSet) :
    (applyQ2 out r).gold_sql = out.gold_sql := by
  cases r <;> rfl

/-- C10: only the setup script is sanitized — the executor coincides with the
raw executor (which sends its setup argument to the engine verbatim) applied
to the sanitized setup and to `q1`, `q2` exactly as parsed, and the recorded
query texts are exactly `q1` and `q2`. -/
theorem run_sqlite_case_sanitizes_only_setup {DB : Type} (E : SqlEngine DB)
    (setup_sql q1 q2 : List Char) (os : Bool) :
    run_sqlite_case E setup_sql q1 q2 os =
      run_sqlite_case_raw E (sanitize_setup setup_sql) q1 q2 os ∧
    (run_sqlite_case E setup_sql q1 q2 os).generated_sql = q1 ∧
    (run_sqlite_case E setup_sql q1 q2 os).gold_sql = q2 := by
  refine ⟨rfl, ?_, ?_⟩ <;>
  · unfold run_sqlite_case
    cases hp : E.executescript E.init pragmaScript with
    | mk pr db1 =>
      cases pr with
      | error e => rfl
      | ok u =>
        dsimp only
        cases hs : E.executescript db1 (sanitize_setup setup_sql) with
        | mk sr db2 =>
          cases sr with
          | error e => rfl
          | ok u2 =>
            dsimp only
            cases hr1 : (E.execute db2 q1).1 with
            | ok res1 =>
              cases hr2 : (E.execute (E.execute db2 q1).2 q2).1 with
              | ok res2 =>
                simp only [hr1, hr2, applyQ1_generated_sql, applyQ2_generated_sql,
                  applyQ1_gold_sql, applyQ2_gold_sql]
                rfl
              | error e2 =>
                simp only [hr1, hr2, applyQ1_generated_sql, applyQ2_generated_sql,
                  applyQ1_gold_sql, applyQ2_gold_sql]
                rfl
            | error e1 =>
              cases hr2 : (E.execute (E.execute db2 q1).2 q2).1 with
              | ok res2 =>
                simp only [hr1, hr2, applyQ1_generated_sql, applyQ2_generated_sql,
                  applyQ1_gold_sql, applyQ2_gold_sql]
                rfl
              | error e2 =>
                simp only [hr1, hr2, applyQ1_generated_sql, applyQ2_generated_sql,
                  applyQ1_gold_sql, applyQ2_gold_sql]
                rfl

/-- C1: the verdict is `"Error"` unless both queries executed successfully;
when both succeeded it is `"True"` exactly when `results_equal` holds of the
two stored result sets under the chosen mode and `"False"` otherwise; and a
`"True"`/`"False"` verdict implies both `q1_ok` and `q2_ok`. -/
theorem run_sqlite_case_verdict_spec {DB : Type} (E : SqlEngine DB)
    (setup_sql q1 q2 : List Char) (os : Bool) :
    (¬ ((run_sqlite_case E setup_sql q1 q2 os).q1_ok = true ∧
        (run_sqlite_case E setup_sql q1 q2 os).q2_ok = true) →
      (run_sqlite_case E setup_sql q1 q2 os).equal = "Error") ∧
    ((run_sqlite_case E setup_sql q1 q2 os).q1_ok = true ∧
        (run_sqlite_case E setup_sql q1 q2 os).q2_ok = true →
      ∃ r1 r2, (run_sqlite_case E setup_sql q1 q2 os).q1_full = some r1 ∧
        (run_sqlite_case E setup_sql q1 q2 os).q2_full = some r2 ∧
        (run_sqlite_case E setup_sql q1 q2 os).equal =
          (if results_equal r1 r2 os then "True" else "False")) ∧
    (((run_sqlite_case E setup_sql q1 q2 os).equal = "True" ∨
      (run_sqlite_case E setup_sql q1 q2 os).equal = "False") →
      (run_sqlite_case E setup_sql q1 q2 os).q1_ok = true ∧
      (run_sqlite_case E setup_sql q1 q2 os).q2_ok = true) := by
  unfold run_sqlite_case
  cases hp : E.executescript E.init pragmaScript with
  | mk pr db1 =>
    cases pr with
    | error e =>
      dsimp only
      refine ⟨fun _ => rfl, ?_, ?_⟩
      · rintro ⟨h1, h2⟩
        simp [initialCaseOut] at h1
      · intro h
        rcases h with h | h <;> simp [initialCaseOut] at h
    | ok u =>
      dsimp only
      cases hs : E.executescript db1 (sanitize_setup setup_sql) with
      | mk sr db2 =>
        cases sr with
        | error e =>
          dsimp only
          refine ⟨fun _ => rfl, ?_, ?_⟩
          · rintro ⟨h1, h2⟩
            simp [initialCaseOut] at h1
          · intro h
            rcases h with h | h <;> simp [initialCaseOut] at h
        | ok u2 =>
          dsimp only
          cases hr1 : (E.execute db2 q1).1 with
          | ok res1 =>
            cases hr2 : (E.execute (E.execute db2 q1).2 q2).1 with
            | ok res2 =>
              refine ⟨?_, ?_, ?_⟩
              · intro hno
                exact absurd ⟨by simp [applyQ1, applyQ2], by simp [applyQ1, applyQ2]⟩ hno
              · intro _
                exact ⟨res1, res2, by simp [applyQ1, applyQ2], by simp [applyQ1, applyQ2], rfl⟩
              · intro _
                exact ⟨by simp [applyQ1, applyQ2], by simp [applyQ1, applyQ2]⟩
            | error e2 =>
              refine ⟨fun _ => rfl, ?_, ?_⟩
              · rintro ⟨h1, h2⟩
                simp [applyQ1, applyQ2, initialCaseOut] at h2
              · intro h
                rcases h with h | h <;> simp at h
          | error e1 =>
            cases hr2 : (E.execute (E.execute db2 q1).2 q2).1 with
            | ok res2 =>
              refine ⟨fun _ => rfl, ?_, ?_⟩
              · rintro ⟨h1, h2⟩
                simp [applyQ1, applyQ2, initialCaseOut] at h1
              · intro h
                rcases h with h | h <;> simp at h
            | error e2 =>
              refine ⟨fun _ => rfl, ?_, ?_⟩
              · rintro ⟨h1, h2⟩
                simp [applyQ1, applyQ2, initialCaseOut] at h1
              · intro h
                rcases h with h | h <;> simp at h

/-- Witness for C1 at a concrete always-succeeding engine. -/
theorem run_sqlite_case_verdict_spec_witness :
    ∃ r1 r2,
      (run_sqlite_case unitOkEngine ("s").data ("a").data ("b").data false).q1_full = some r1 ∧
      (run_sqlite_case unitOkEngine ("s").data ("a").data ("b").data false).q2_full = some r2 ∧
      (run_sqlite_case unitOkEngine ("s").data ("a").data ("b").data false).equal =
        (if results_equal r1 r2 false then "True" else "False") :=
  (run_sqlite_case_verdict_spec unitOkEngine ("s").data ("a").data ("b").data false).2.1
    (by decide)

set_option maxRecDepth 10000 in
/-- C3 counterexample: on a case whose setup script fails, the setup error is
recorded in the generated-query error field, which is therefore not empty —
contradicting the claim that both per-query error fields stay empty. -/
theorem setup_failure_q1_error_counterexample :
    (run_sqlite_case unitSetupFailEngine ("x").data ("a").data ("b").data false).equal
      = "Error" ∧
    (run_sqlite_case unitSetupFailEngine ("x").data ("a").data ("b").data false).q1_ok
      = false ∧
    (run_sqlite_case unitSetupFailEngine ("x").data ("a").data ("b").data false).q2_ok
      = false ∧
    (run_sqlite_case unitSetupFailEngine ("x").data ("a").data ("b").data false).q1_error
      = ("setup_error: boom").data ∧
    ¬ (run_sqlite_case unitSetupFailEngine ("x").data ("a").data ("b").data false).q1_error
      = [] := by
  refine ⟨?_, ?_, ?_, ?_, ?_⟩ <;> decide

/-- C3 (amended): when the PRAGMA script succeeds and the sanitized setup
script raises `e`, the verdict is `"Error"`, both ok flags are false, the
setup error is attached to the generated-query error field as
`"setup_error: " ++ e`, the gold-query error field stays empty, and neither
query is attempted — the outcome is unchanged under any replacement of the
engine's `execute`. -/
theorem run_sqlite_case_setup_failure_spec {DB : Type} (E : SqlEngine DB)
    (setup_sql q1 q2 : List Char) (os : Bool) (e : List Char) {u : Unit} {db1 db2 : DB}
    (hp : E.executescript E.init pragmaScript = (.ok u, db1))
    (hs : E.executescript db1 (sanitize_setup setup_sql) = (.error e, db2)) :
    (run_sqlite_case E setup_sql q1 q2 os).equal = "Error" ∧
    (run_sqlite_case E setup_sql q1 q2 os).q1_ok = false ∧
    (run_sqlite_case E setup_sql q1 q2 os).q2_ok = false ∧
    (run_sqlite_case E setup_sql q1 q2 os).q1_error = ("setup_error: ").data ++ e ∧
    (run_sqlite_case E setup_sql q1 q2 os).q2_error = [] ∧
    (∀ E' : SqlEngine DB, E'.init = E.init → E'.executescript = E.executescript →
      run_sqlite_case E' setup_sql q1 q2 os = run_sqlite_case E setup_sql q1 q2 os) := by
  have hrun : run_sqlite_case E setup_sql q1 q2 os =
      { initialCaseOut q1 q2 os with q1_error := ("setup_error: ").data ++ e } := by
    unfold run_sqlite_case
    rw [hp]
    dsimp only
    rw [hs]
  refine ⟨?_, ?_, ?_, ?_, ?_, ?_⟩
  · rw [hrun]; rfl
  · rw [hrun]; rfl
  · rw [hrun]; rfl
  · rw [hrun]
  · rw [hrun]; rfl
  · intro E' hinit hscr
    have hrun' : run_sqlite_case E' setup_sql q1 q2 os =
        { initialCaseOut q1 q2 os with q1_error := ("setup_error: ").data ++ e } := by
      unfold run_sqlite_case
      rw [hinit, hscr, hp]
      dsimp only
      rw [hs]
    rw [hrun, hrun']

set_option maxRecDepth 10000 in
/-- Witness for C3 (amended) at a concrete failing engine. -/
theorem run_sqlite_case_setup_failure_spec_witness :
    (run_sqlite_case unitSetupFailEngine ("x").data ("a").data ("b").data false).q1_error =
      ("setup_error: ").data ++ ("boom").data ∧
    (run_sqlite_case unitSetupFailEngine ("x").data ("a").data ("b").data false).q2_error =
      [] :=
  ⟨(@run_sqlite_case_setup_failure_spec Unit unitSetupFailEngine ("x").data ("a").data
      ("b").data false ("boom").data () () () (by rfl) (by rfl)).2.2.2.1,
   (@run_sqlite_case_setup_failure_spec Unit unitSetupFailEngine ("x").data ("a").data
      ("b").data false ("boom").data () () () (by rfl) (by rfl)).2.2.2.2.1⟩



/-- C4: on a blob where the `sql2` marker occurs only before the `sql1`
marker, `parse_block_text` does not skip the chunk — the two-variable
unpacking of the second split raises `ValueError`. -/
theorem parse_block_text_raises_on_reordered_markers :
    parse_block_text ("-- ----------sql2------------\n-- ----------sql1------------\nx").data =
      .error "ValueError: not enough values to unpack (expected 2, got 1)" := by
  rfl

set_option maxRecDepth 100000 in
/-- C7 counterexample: a blob parsing into two triples tags the FIRST triple
`q7_blk1`, not the unchanged caller identifier `q7`. -/
theorem tag_cases_first_id_counterexample :
    (row_cases none ("q7").data
        ("A\n-- ----------sql1------------\nq1\n-- ----------sql2------------\nq2\n~~~~~~~~~~~\nB\n-- ----------sql1------------\nr1\n-- ----------sql2------------\nr2").data).map
        (fun cs => cs.map (fun c => c.question_id)) =
      .ok [("q7_blk1").data, ("q7_blk2").data] ∧
    ¬ ("q7_blk1").data = ("q7").data := by
  constructor
  · rfl
  · decide

/-- C7 (amended): with two or more triples from one blob, every triple —
including the first — gets the disambiguating suffix `_blk<j>` (1-based `j`)
appended to the caller identifier; a single triple keeps it unmodified. -/
theorem tag_cases_spec (bound : Option (List Char)) (base : List Char) (blocks : List Block) :
    (2 ≤ blocks.length →
      (tag_cases bound base blocks).map (fun c => c.question_id) =
        (List.range blocks.length).map (fun j => base ++ ("_blk").data ++ natChars (j + 1))) ∧
    (blocks.length = 1 →
      (tag_cases bound base blocks).map (fun c => c.question_id) = [base]) := by
  constructor
  · intro hlen
    match blocks, hlen with
    | b :: b' :: t, _ =>
      have h : tag_cases bound base (b :: b' :: t) =
          (b :: b' :: t).enum.map (fun jb =>
            ⟨bound, base ++ ("_blk").data ++ natChars (jb.1 + 1),
             jb.2.setup_sql, jb.2.sql1, jb.2.sql2⟩) := rfl
      rw [h, List.map_map]
      have h2 : ((fun c : TaggedCase => c.question_id) ∘ (fun jb : Nat × Block =>
          (⟨bound, base ++ ("_blk").data ++ natChars (jb.1 + 1),
            jb.2.setup_sql, jb.2.sql1, jb.2.sql2⟩ : TaggedCase))) =
          (fun j => base ++ ("_blk").data ++ natChars (j + 1)) ∘ Prod.fst := rfl
      rw [h2, ← List.map_map, List.enum_map_fst]
  · intro hlen
    match blocks, hlen with
    | [b], _ => rfl

/-- Witness for C7 (amended) at a concrete two-block list. -/
theorem tag_cases_spec_witness :
    (tag_cases none ("q").data
        [⟨("s").data, ("a").data, ("b").data⟩, ⟨("s").data, ("a").data, ("b").data⟩]).map
        (fun c => c.question_id) =
      (List.range 2).map (fun j => ("q").data ++ ("_blk").data ++ natChars (j + 1)) :=
  (tag_cases_spec none ("q").data
      [⟨("s").data, ("a").data, ("b").data⟩, ⟨("s").data, ("a").data, ("b").data⟩]).1
    (by decide)

theorem qhAux_nil (fuel : Nat) (m : ScanMode) : qhAux fuel m [] = [] := by
  cases fuel <;> cases m <;> rfl

theorem hasHyphIdentAux_nil (fuel : Nat) (m : ScanMode) : hasHyphIdentAux fuel m [] = false := by
  cases fuel <;> cases m <;> rfl

theorem fixAposAux_id : ∀ (s : List Char) (m : Bool),
    hasLoneAposAux s m = false → fixAposAux s m = s
  | [], _ => fun _ => rfl
  | c :: t, false => fun h => by
    rw [hasLoneAposAux] at h
    rw [fixAposAux]
    by_cases hc : c = '\''
    · rw [if_pos hc, fixAposAux_id t true (by simpa [hc] using h)]
    · rw [if_neg hc, fixAposAux_id t false (by simpa [hc] using h)]
  | c :: [], true => fun h => by
    rw [fixAposAux]
    by_cases hc : c = '\''
    · rw [if_pos hc, hc]
    · rw [if_neg hc]
      rfl
  | c :: d :: t, true => fun h => by
    rw [hasLoneAposAux] at h
    rw [fixAposAux]
    by_cases hc : c = '\''
    · rw [if_pos hc] at h ⊢
      by_cases hd : d = '\''
      · rw [if_pos hd] at h ⊢
        rw [fixAposAux_id t true h, hc, hd]
      · rw [if_neg hd] at h ⊢
        by_cases ha : d.isAlpha = true
        · rw [if_pos ha] at h
          exact absurd h (by simp)
        · rw [if_neg ha] at h ⊢
          rw [fixAposAux_id (d :: t) false h, hc]
    · rw [if_neg hc] at h ⊢
      rw [fixAposAux_id (d :: t) true h]

theorem qhAux_id : ∀ (fuel : Nat) (m : ScanMode) (s : List Char), s.length < fuel →
    hasHyphIdentAux fuel m s = false → qhAux fuel m s = s := by
  intro fuel
  induction fuel with
  | zero => intro m s hlen h; omega
  | succ fuel ih =>
    intro m s hlen h
    cases s with
    | nil => exact qhAux_nil _ _
    | cons c t =>
      have hlt : t.length < fuel := by simp at hlen; omega
      cases m with
      | line =>
        rw [hasHyphIdentAux] at h
        rw [qhAux, ih _ t hlt h]
      | block =>
        cases t with
        | nil =>
          rw [qhAux]
          by_cases hc : c = '*'
          · rw [if_pos hc, hc]
          · rw [if_neg hc, qhAux_nil]
        | cons d t' =>
          have hlt' : t'.length < fuel := by simp at hlen; omega
          rw [hasHyphIdentAux] at h
          rw [qhAux]
          by_cases hc : c = '*'
          · rw [if_pos hc] at h ⊢
            by_cases hd : d = '/'
            · rw [if_pos hd] at h ⊢
              rw [ih .normal t' hlt' h, hc, hd]
            · rw [if_neg hd] at h ⊢
              rw [ih .block (d :: t') hlt h, hc]
          · rw [if_neg hc] at h ⊢
            rw [ih .block (d :: t') hlt h]
      | single =>
        cases t with
        | nil =>
          rw [qhAux]
          by_cases hc : c = '\''
          · rw [if_pos hc, hc]
          · rw [if_neg hc, qhAux_nil]
        | cons d t' =>
          have hlt' : t'.length < fuel := by simp at hlen; omega
          rw [hasHyphIdentAux] at h
          rw [qhAux]
          by_cases hc : c = '\''
          · rw [if_pos hc] at h ⊢
            by_cases hd : d = '\''
            · rw [if_pos hd] at h ⊢
              rw [ih .single t' hlt' h, hc, hd]
            · rw [if_neg hd] at h ⊢
              rw [ih .normal (d :: t') hlt h, hc]
          · rw [if_neg hc] at h ⊢
            rw [ih .single (d :: t') hlt h]
      | double =>
        cases t with
        | nil =>
          rw [qhAux]
          by_cases hc : c = '"'
          · rw [if_pos hc, hc]
          · rw [if_neg hc, qhAux_nil]
        | cons d t' =>
          have hlt' : t'.length < fuel := by simp at hlen; omega
          rw [hasHyphIdentAux] at h
          rw [qhAux]
          by_cases hc : c = '"'
          · rw [if_pos hc] at h ⊢
            by_cases hd : d = '"'
            · rw [if_pos hd] at h ⊢
              rw [ih .double t' hlt' h, hc, hd]
            · rw [if_neg hd] at h ⊢
              rw [ih .normal (d :: t') hlt h, hc]
          · rw [if_neg hc] at h ⊢
            rw [ih .double (d :: t') hlt h]
      | normal =>
        cases t with
        | nil =>
          rw [qhAux]
          by_cases hc1 : c = '-'
          · rw [if_pos hc1, hc1]
          · rw [if_neg hc1]
            by_cases hc2 : c = '/'
            · rw [if_pos hc2, hc2]
            · rw [if_neg hc2]
              by_cases hc3 : c = '\''
              · rw [if_pos hc3, qhAux_nil, hc3]
              · rw [if_neg hc3]
                by_cases hc4 : c = '"'
                · rw [if_pos hc4, qhAux_nil, hc4]
                · rw [if_neg hc4]
                  by_cases hc5 : c.isAlpha || c = '_'
                  · rw [if_pos hc5]
                    rw [if_neg ?noh, List.dropWhile_nil, qhAux_nil]
                    case noh =>
                      intro hmem
                      rw [List.takeWhile_nil] at hmem
                      simp at hmem
                      exact hc1 hmem.symm
                    simp
                  · rw [if_neg hc5, qhAux_nil]
        | cons d t' =>
          have hlt' : t'.length < fuel := by simp at hlen; omega
          rw [hasHyphIdentAux] at h
          rw [qhAux]
          by_cases hc1 : c = '-'
          · rw [if_pos hc1] at h ⊢
            by_cases hd : d = '-'
            · rw [if_pos hd] at h ⊢
              rw [ih .line t' hlt' h, hc1, hd]
            · rw [if_neg hd] at h ⊢
              rw [ih .normal (d :: t') hlt h, hc1]
          · rw [if_neg hc1] at h ⊢
            by_cases hc2 : c = '/'
            · rw [if_pos hc2] at h ⊢
              by_cases hd : d = '*'
              · rw [if_pos hd] at h ⊢
                rw [ih .block t' hlt' h, hc2, hd]
              · rw [if_neg hd] at h ⊢
                rw [ih .normal (d :: t') hlt h, hc2]
            · rw [if_neg hc2] at h ⊢
              by_cases hc3 : c = '\''
              · rw [if_pos hc3] at h ⊢
                rw [ih .single (d :: t') hlt h, hc3]
              · rw [if_neg hc3] at h ⊢
                by_cases hc4 : c = '"'
                · rw [if_pos hc4] at h ⊢
                  rw [ih .double (d :: t') hlt h, hc4]
                · rw [if_neg hc4] at h ⊢
                  by_cases hc5 : c.isAlpha || c = '_'
                  · rw [if_pos hc5] at h ⊢
                    simp only [Bool.or_eq_false_iff, decide_eq_false_iff_not] at h
                    obtain ⟨h1, h2⟩ := h
                    have hdlen : ((d :: t').dropWhile identChar).length < fuel := by
                      have hsub : ((d :: t').dropWhile identChar).length ≤ (d :: t').length :=
                        List.Sublist.length_le (List.dropWhile_sublist _)
                      simp at hlen
                      simp at hsub
                      omega
                    rw [if_neg h1, ih .normal ((d :: t').dropWhile identChar) hdlen h2]
                    rw [List.cons_append, List.takeWhile_append_dropWhile]
                  · rw [if_neg hc5] at h ⊢
                    rw [ih .normal (d :: t') hlt h]

theorem qrAux_id : ∀ (fuel : Nat) (prev : Option Char) (s : List Char), s.length < fuel →
    hasReservedAux fuel prev s = false → qrAux fuel prev s = s := by
  intro fuel
  induction fuel with
  | zero => intro prev s hlen h; omega
  | succ fuel ih =>
    intro prev s hlen h
    cases s with
    | nil => rfl
    | cons c t =>
      rw [hasReservedAux] at h
      simp only [Bool.or_eq_false_iff] at h
      obtain ⟨h1, h2⟩ := h
      rw [qrAux, if_neg (by simp [h1]), ih (some c) t (by simp at hlen; omega) h2]

/-- C5 counterexample: `'A'B'` contains no hyphenated bare identifier and no
bare reserved word, yet the composed sanitizer changes it (the apostrophe
pass doubles the inner quote), so the claim's precondition is insufficient. -/
theorem sanitize_not_idempotent_counterexample :
    hyphFree ("'A'B'").data = true ∧ reservedFree ("'A'B'").data = true ∧
    ¬ sanitize_setup ("'A'B'").data = ("'A'B'").data :=
  ⟨by decide, by decide, by decide⟩

/-- C5 (amended): on text additionally free of unescaped in-literal
apostrophes, each sanitizer pass — and hence their composition — returns the
text unchanged. -/
theorem sanitize_setup_idempotent (s : List Char) (h1 : aposFree s = true)
    (h2 : hyphFree s = true) (h3 : reservedFree s = true) :
    sanitize_setup s = s ∧ fix_unescaped_apostrophes s = s ∧
    quote_hyphenated_identifiers s = s ∧ quote_reserved_columns s = s := by
  have hf : fix_unescaped_apostrophes s = s :=
    fixAposAux_id s false (by simpa [aposFree] using h1)
  have hh : quote_hyphenated_identifiers s = s :=
    qhAux_id (s.length + 1) .normal s (by omega) (by simpa [hyphFree] using h2)
  have hr : quote_reserved_columns s = s :=
    qrAux_id (s.length + 1) none s (by omega) (by simpa [reservedFree] using h3)
  refine ⟨?_, hf, hh, hr⟩
  unfold sanitize_setup
  rw [hf, hh, hr]

/-- Witness for C5 (amended) at a concrete sanitized text. -/
theorem sanitize_setup_idempotent_witness :
    sanitize_setup ("select x from t where y = 'ok'").data =
      ("select x from t where y = 'ok'").data :=
  (sanitize_setup_idempotent ("select x from t where y = 'ok'").data
    (by decide) (by decide) (by decide)).1

theorem grabLine_append (s : List Char) : (grabLine s).1 ++ (grabLine s).2 = s := by
  induction s with
  | nil => rfl
  | cons c t ih =>
    rw [grabLine]
    by_cases hc : c = '\n'
    · rw [if_pos hc, hc]
      rfl
    · rw [if_neg hc]
      simpa using ih

theorem grabBlock_append : ∀ (s : List Char), (grabBlock s).1 ++ (grabBlock s).2 = s
  | [] => rfl
  | c :: [] => by
    rw [grabBlock]
    by_cases hc : c = '*'
    · rw [if_pos hc, hc]
      rfl
    · rw [if_neg hc]
      simpa using grabBlock_append []
  | c :: d :: t => by
    rw [grabBlock]
    by_cases hc : c = '*'
    · rw [if_pos hc]
      by_cases hd : d = '/'
      · rw [if_pos hd, hc, hd]
        rfl
      · rw [if_neg hd, hc]
        simpa using grabBlock_append (d :: t)
    · rw [if_neg hc]
      simpa using grabBlock_append (d :: t)

theorem grabSingle_append : ∀ (s : List Char), (grabSingle s).1 ++ (grabSingle s).2 = s
  | [] => rfl
  | c :: [] => by
    rw [grabSingle]
    by_cases hc : c = '\''
    · rw [if_pos hc, hc]
      rfl
    · rw [if_neg hc]
      simpa using grabSingle_append []
  | c :: d :: t => by
    rw [grabSingle]
    by_cases hc : c = '\''
    · rw [if_pos hc]
      by_cases hd : d = '\''
      · rw [if_pos hd, hc, hd]
        simpa using grabSingle_append t
      · rw [if_neg hd, hc]
        rfl
    · rw [if_neg hc]
      simpa using grabSingle_append (d :: t)

theorem grabDouble_append : ∀ (s : List Char), (grabDouble s).1 ++ (grabDouble s).2 = s
  | [] => rfl
  | c :: [] => by
    rw [grabDouble]
    by_cases hc : c = '"'
    · rw [if_pos hc, hc]
      rfl
    · rw [if_neg hc]
      simpa using grabDouble_append []
  | c :: d :: t => by
    rw [grabDouble]
    by_cases hc : c = '"'
    · rw [if_pos hc]
      by_cases hd : d = '"'
      · rw [if_pos hd, hc, hd]
        simpa using grabDouble_append t
      · rw [if_neg hd, hc]
        rfl
    · rw [if_neg hc]
      simpa using grabDouble_append (d :: t)

theorem grabLine_snd_length (s : List Char) : (grabLine s).2.length ≤ s.length := by
  have h := congrArg List.length (grabLine_append s)
  simp only [List.length_append] at h
  omega

theorem grabBlock_snd_length (s : List Char) : (grabBlock s).2.length ≤ s.length := by
  have h := congrArg List.length (grabBlock_append s)
  simp only [List.length_append] at h
  omega

theorem grabSingle_snd_length (s : List Char) : (grabSingle s).2.length ≤ s.length := by
  have h := congrArg List.length (grabSingle_append s)
  simp only [List.length_append] at h
  omega

theorem grabDouble_snd_length (s : List Char) : (grabDouble s).2.length ≤ s.length := by
  have h := congrArg List.length (grabDouble_append s)
  simp only [List.length_append] at h
  omega

theorem takeWhile_idem (p : Char → Bool) : ∀ (l : List Char),
    (l.takeWhile p).takeWhile p = l.takeWhile p
  | [] => rfl
  | c :: t => by
    rw [List.takeWhile_cons]
    by_cases hc : p c = true
    · rw [if_pos hc, List.takeWhile_cons, if_pos hc, takeWhile_idem p t]
    · rw [if_neg hc]
      rfl

theorem dropWhile_takeWhile (p : Char → Bool) : ∀ (l : List Char),
    (l.takeWhile p).dropWhile p = []
  | [] => rfl
  | c :: t => by
    rw [List.takeWhile_cons]
    by_cases hc : p c = true
    · rw [if_pos hc, List.dropWhile_cons, if_pos hc, dropWhile_takeWhile p t]
    · rw [if_neg hc]
      rfl

theorem qhAux_fuel_congr : ∀ (f1 f2 : Nat) (m : ScanMode) (s : List Char),
    s.length < f1 → s.length < f2 → qhAux f1 m s = qhAux f2 m s := by
  intro f1
  induction f1 with
  | zero => intro f2 m s h1 h2; omega
  | succ f1 ih =>
    intro f2 m s h1 h2
    cases s with
    | nil => rw [qhAux_nil, qhAux_nil]
    | cons c t =>
      match f2, h2 with
      | f2 + 1, h2 =>
        have hlt1 : t.length < f1 := by simp at h1; omega
        have hlt2 : t.length < f2 := by simp at h2; omega
        cases m with
        | line =>
          rw [qhAux, qhAux, ih f2 _ t hlt1 hlt2]
        | block =>
          cases t with
          | nil =>
            simp only [qhAux, qhAux_nil]
          | cons d t' =>
            have hlt1' : t'.length < f1 := by simp at h1; omega
            have hlt2' : t'.length < f2 := by simp at h2; omega
            rw [qhAux, qhAux]
            by_cases hc : c = '*'
            · rw [if_pos hc, if_pos hc]
              by_cases hd : d = '/'
              · rw [if_pos hd, if_pos hd, ih f2 .normal t' hlt1' hlt2']
              · rw [if_neg hd, if_neg hd, ih f2 .block (d :: t') hlt1 hlt2]
            · rw [if_neg hc, if_neg hc, ih f2 .block (d :: t') hlt1 hlt2]
        | single =>
          cases t with
          | nil =>
            simp only [qhAux, qhAux_nil]
          | cons d t' =>
            have hlt1' : t'.length < f1 := by simp at h1; omega
            have hlt2' : t'.length < f2 := by simp at h2; omega
            rw [qhAux, qhAux]
            by_cases hc : c = '\''
            · rw [if_pos hc, if_pos hc]
              by_cases hd : d = '\''
              · rw [if_pos hd, if_pos hd, ih f2 .single t' hlt1' hlt2']
              · rw [if_neg hd, if_neg hd, ih f2 .normal (d :: t') hlt1 hlt2]
            · rw [if_neg hc, if_neg hc, ih f2 .single (d :: t') hlt1 hlt2]
        | double =>
          cases t with
          | nil =>
            simp only [qhAux, qhAux_nil]
          | cons d t' =>
            have hlt1' : t'.length < f1 := by simp at h1; omega
            have hlt2' : t'.length < f2 := by simp at h2; omega
            rw [qhAux, qhAux]
            by_cases hc : c = '"'
            · rw [if_pos hc, if_pos hc]
              by_cases hd : d = '"'
              · rw [if_pos hd, if_pos hd, ih f2 .double t' hlt1' hlt2']
              · rw [if_neg hd, if_neg hd, ih f2 .normal (d :: t') hlt1 hlt2]
            · rw [if_neg hc, if_neg hc, ih f2 .double (d :: t') hlt1 hlt2]
        | normal =>
          cases t with
          | nil =>
            simp only [qhAux, qhAux_nil, List.dropWhile_nil, List.takeWhile_nil]
          | cons d t' =>
            have hlt1' : t'.length < f1 := by simp at h1; omega
            have hlt2' : t'.length < f2 := by simp at h2; omega
            rw [qhAux, qhAux]
            by_cases hc1 : c = '-'
            · rw [if_pos hc1, if_pos hc1]
              by_cases hd : d = '-'
              · rw [if_pos hd, if_pos hd, ih f2 .line t' hlt1' hlt2']
              · rw [if_neg hd, if_neg hd, ih f2 .normal (d :: t') hlt1 hlt2]
            · rw [if_neg hc1, if_neg hc1]
              by_cases hc2 : c = '/'
              · rw [if_pos hc2, if_pos hc2]
                by_cases hd : d = '*'
                · rw [if_pos hd, if_pos hd, ih f2 .block t' hlt1' hlt2']
                · rw [if_neg hd, if_neg hd, ih f2 .normal (d :: t') hlt1 hlt2]
              · rw [if_neg hc2, if_neg hc2]
                by_cases hc3 : c = '\''
                · rw [if_pos hc3, if_pos hc3, ih f2 .single (d :: t') hlt1 hlt2]
                · rw [if_neg hc3, if_neg hc3]
                  by_cases hc4 : c = '"'
                  · rw [if_pos hc4, if_pos hc4, ih f2 .double (d :: t') hlt1 hlt2]
                  · rw [if_neg hc4, if_neg hc4]
                    by_cases hc5 : c.isAlpha || c = '_'
                    · rw [if_pos hc5, if_pos hc5]
                      have hdlen : ((d :: t').dropWhile identChar).length ≤ (d :: t').length :=
                        List.Sublist.length_le (List.dropWhile_sublist _)
                      rw [ih f2 .normal ((d :: t').dropWhile identChar) (by omega) (by omega)]
                    · rw [if_neg hc5, if_neg hc5, ih f2 .normal (d :: t') hlt1 hlt2]

theorem qhAux_line_grab : ∀ (fuel : Nat) (s : List Char), s.length < fuel →
    qhAux fuel .line s =
      (grabLine s).1 ++ qhAux ((grabLine s).2.length + 1) .normal (grabLine s).2 := by
  intro fuel
  induction fuel with
  | zero => intro s h; omega
  | succ fuel ih =>
    intro s h
    cases s with
    | nil => simp [grabLine, qhAux_nil]
    | cons c t =>
      have hlt : t.length < fuel := by simp at h; omega
      rw [qhAux, grabLine]
      by_cases hc : c = '\n'
      · rw [if_pos hc, if_pos hc]
        rw [qhAux_fuel_congr fuel (t.length + 1) .normal t hlt (by omega)]
        rfl
      · rw [if_neg hc, if_neg hc, ih t hlt]
        rfl

theorem qhAux_block_grab : ∀ (fuel : Nat) (s : List Char), s.length < fuel →
    qhAux fuel .block s =
      (grabBlock s).1 ++ qhAux ((grabBlock s).2.length + 1) .normal (grabBlock s).2 := by
  intro fuel
  induction fuel with
  | zero => intro s h; omega
  | succ fuel ih =>
    intro s h
    cases s with
    | nil => simp [grabBlock, qhAux_nil]
    | cons c t =>
      have hlt : t.length < fuel := by simp at h; omega
      cases t with
      | nil =>
        rw [qhAux, grabBlock]
        by_cases hc : c = '*'
        · rw [if_pos hc, if_pos hc]
          rfl
        · rw [if_neg hc, if_neg hc]
          rw [qhAux_nil]
          rfl
      | cons d t' =>
        have hlt' : t'.length < fuel := by simp at h; omega
        rw [qhAux, grabBlock]
        by_cases hc : c = '*'
        · rw [if_pos hc, if_pos hc]
          by_cases hd : d = '/'
          · rw [if_pos hd, if_pos hd]
            rw [qhAux_fuel_congr fuel (t'.length + 1) .normal t' hlt' (by omega)]
            rfl
          · rw [if_neg hd, if_neg hd, ih (d :: t') hlt]
            rfl
        · rw [if_neg hc, if_neg hc, ih (d :: t') hlt]
          rfl

theorem qhAux_single_grab : ∀ (fuel : Nat) (s : List Char), s.length < fuel →
    qhAux fuel .single s =
      (grabSingle s).1 ++ qhAux ((grabSingle s).2.length + 1) .normal (grabSingle s).2 := by
  intro fuel
  induction fuel with
  | zero => intro s h; omega
  | succ fuel ih =>
    intro s h
    cases s with
    | nil => simp [grabSingle, qhAux_nil]
    | cons c t =>
      have hlt : t.length < fuel := by simp at h; omega
      cases t with
      | nil =>
        rw [qhAux, grabSingle]
        by_cases hc : c = '\''
        · rw [if_pos hc, if_pos hc]
          rfl
        · rw [if_neg hc, if_neg hc]
          rw [qhAux_nil]
          rfl
      | cons d t' =>
        have hlt' : t'.length < fuel := by simp at h; omega
        rw [qhAux, grabSingle]
        by_cases hc : c = '\''
        · rw [if_pos hc, if_pos hc]
          by_cases hd : d = '\''
          · rw [if_pos hd, if_pos hd, ih t' hlt']
            rfl
          · rw [if_neg hd, if_neg hd]
            rw [qhAux_fuel_congr fuel ((d :: t').length + 1) .normal (d :: t') hlt (by omega)]
            rfl
        · rw [if_neg hc, if_neg hc, ih (d :: t') hlt]
          rfl

theorem qhAux_double_grab : ∀ (fuel : Nat) (s : List Char), s.length < fuel →
    qhAux fuel .double s =
      (grabDouble s).1 ++ qhAux ((grabDouble s).2.length + 1) .normal (grabDouble s).2 := by
  intro fuel
  induction fuel with
  | zero => intro s h; omega
  | succ fuel ih =>
    intro s h
    cases s with
    | nil => simp [grabDouble, qhAux_nil]
    | cons c t =>
      have hlt : t.length < fuel := by simp at h; omega
      cases t with
      | nil =>
        rw [qhAux, grabDouble]
        by_cases hc : c = '"'
        · rw [if_pos hc, if_pos hc]
          rfl
        · rw [if_neg hc, if_neg hc]
          rw [qhAux_nil]
          rfl
      | cons d t' =>
        have hlt' : t'.length < fuel := by simp at h; omega
        rw [qhAux, grabDouble]
        by_cases hc : c = '"'
        · rw [if_pos hc, if_pos hc]
          by_cases hd : d = '"'
          · rw [if_pos hd, if_pos hd, ih t' hlt']
            rfl
          · rw [if_neg hd, if_neg hd]
            rw [qhAux_fuel_congr fuel ((d :: t').length + 1) .normal (d :: t') hlt (by omega)]
            rfl
        · rw [if_neg hc, if_neg hc, ih (d :: t') hlt]
          rfl

theorem segsAux_nil (fuel : Nat) : segsAux fuel [] = [] := by
  cases fuel <;> rfl

theorem takeWhile_eq_self_of_all (p : Char → Bool) : ∀ (l : List Char),
    (∀ x ∈ l, p x = true) → l.takeWhile p = l
  | [], _ => rfl
  | c :: t, h => by
    rw [List.takeWhile_cons, if_pos (h c (by simp)),
      takeWhile_eq_self_of_all p t (fun x hx => h x (by simp [hx]))]

theorem dropWhile_eq_nil_of_all (p : Char → Bool) : ∀ (l : List Char),
    (∀ x ∈ l, p x = true) → l.dropWhile p = []
  | [], _ => rfl
  | c :: t, h => by
    rw [List.dropWhile_cons, if_pos (h c (by simp)),
      dropWhile_eq_nil_of_all p t (fun x hx => h x (by simp [hx]))]

theorem alpha_not_special {c : Char} (hc : (c.isAlpha || c = '_') = true) :
    ¬ c = '-' ∧ ¬ c = '/' ∧ ¬ c = '\'' ∧ ¬ c = '"' := by
  refine ⟨fun h => ?_, fun h => ?_, fun h => ?_, fun h => ?_⟩ <;>
    (subst h; exact absurd hc (by decide))

theorem qhAux_token (c : Char) (u : List Char) (hc : (c.isAlpha || c = '_') = true)
    (hu : ∀ x ∈ u, identChar x = true) :
    qhAux ((c :: u).length + 1) .normal (c :: u) =
      (if '-' ∈ c :: u then '"' :: (c :: u) ++ ['"'] else c :: u) := by
  obtain ⟨h1, h2, h3, h4⟩ := alpha_not_special hc
  cases u with
  | nil =>
    rw [qhAux, if_neg h1, if_neg h2, if_neg h3, if_neg h4, if_pos hc]
    rw [List.takeWhile_nil, List.dropWhile_nil, qhAux_nil, List.append_nil]
  | cons d t =>
    have htake : (d :: t).takeWhile identChar = d :: t :=
      takeWhile_eq_self_of_all identChar (d :: t) hu
    have hdrop : (d :: t).dropWhile identChar = [] :=
      dropWhile_eq_nil_of_all identChar (d :: t) hu
    rw [qhAux, if_neg h1, if_neg h2, if_neg h3, if_neg h4, if_pos hc]
    rw [htake, hdrop, qhAux_nil, List.append_nil]

theorem qhAux_single_char (c : Char) (h1 : ¬ c = '-') (h2 : ¬ c = '/')
    (h3 : ¬ c = '\'') (h4 : ¬ c = '"') (h5 : ¬ (c.isAlpha || c = '_') = true) :
    qhAux 2 .normal [c] = [c] := by
  rw [qhAux, if_neg h1, if_neg h2, if_neg h3, if_neg h4, if_neg h5, qhAux_nil]

theorem qhAux_segs : ∀ (fuel : Nat) (s : List Char), s.length < fuel →
    qhAux fuel .normal s = ((segsAux fuel s).map qhSegProc).flatten ∧
    ((segsAux fuel s).map Prod.snd).flatten = s := by
  intro fuel
  induction fuel with
  | zero => intro s h; omega
  | succ fuel ih =>
    intro s h
    cases s with
    | nil => exact ⟨by rw [qhAux_nil]; rfl, rfl⟩
    | cons c t =>
      have hlt : t.length < fuel := by simp at h; omega
      by_cases hc1 : c = '-'
      · cases t with
        | nil =>
          subst hc1
          refine ⟨?_, ?_⟩ <;>
            simp [qhAux, segsAux, qhSegProc, quote_hyphenated_identifiers, qhAux_nil]
        | cons d t' =>
          have hlt' : t'.length < fuel := by simp at h; omega
          by_cases hd : d = '-'
          · rw [qhAux, segsAux, if_pos hc1, if_pos hc1, if_pos hd, if_pos hd]
            have hg2 : (grabLine t').2.length < fuel := by
              have := grabLine_snd_length t'
              omega
            obtain ⟨ihm, ihc⟩ := ih (grabLine t').2 hg2
            constructor
            · rw [qhAux_line_grab fuel t' hlt']
              rw [qhAux_fuel_congr ((grabLine t').2.length + 1) fuel .normal (grabLine t').2
                (by omega) hg2]
              rw [List.map_cons, List.flatten_cons, ← ihm]
              rw [show qhSegProc (.line, '-' :: '-' :: (grabLine t').1) =
                '-' :: '-' :: (grabLine t').1 from rfl]
              simp
            · rw [List.map_cons, List.flatten_cons]
              show ('-' :: '-' :: (grabLine t').1) ++ _ = _
              rw [ihc, List.cons_append, List.cons_append, grabLine_append t', hc1, hd]
          · rw [qhAux, segsAux, if_pos hc1, if_pos hc1, if_neg hd, if_neg hd]
            obtain ⟨ihm, ihc⟩ := ih (d :: t') hlt
            constructor
            · rw [List.map_cons, List.flatten_cons, ← ihm]
              rw [show qhSegProc (.normal, ['-']) = ['-'] from by decide]
              rfl
            · rw [List.map_cons, List.flatten_cons]
              show ['-'] ++ _ = _
              rw [ihc, hc1]
              rfl
      · by_cases hc2 : c = '/'
        · cases t with
          | nil =>
            subst hc2
            refine ⟨?_, ?_⟩ <;>
              simp [qhAux, segsAux, qhSegProc, quote_hyphenated_identifiers, qhAux_nil]
          | cons d t' =>
            have hlt' : t'.length < fuel := by simp at h; omega
            by_cases hd : d = '*'
            · rw [qhAux, segsAux, if_neg hc1, if_neg hc1, if_pos hc2, if_pos hc2,
                if_pos hd, if_pos hd]
              have hg2 : (grabBlock t').2.length < fuel := by
                have := grabBlock_snd_length t'
                omega
              obtain ⟨ihm, ihc⟩ := ih (grabBlock t').2 hg2
              constructor
              · rw [qhAux_block_grab fuel t' hlt']
                rw [qhAux_fuel_congr ((grabBlock t').2.length + 1) fuel .normal (grabBlock t').2
                  (by omega) hg2]
                rw [List.map_cons, List.flatten_cons, ← ihm]
                rw [show qhSegProc (.block, '/' :: '*' :: (grabBlock t').1) =
                  '/' :: '*' :: (grabBlock t').1 from rfl]
                simp
              · rw [List.map_cons, List.flatten_cons]
                show ('/' :: '*' :: (grabBlock t').1) ++ _ = _
                rw [ihc, List.cons_append, List.cons_append, grabBlock_append t', hc2, hd]
            · rw [qhAux, segsAux, if_neg hc1, if_neg hc1, if_pos hc2, if_pos hc2,
                if_neg hd, if_neg hd]
              obtain ⟨ihm, ihc⟩ := ih (d :: t') hlt
              constructor
              · rw [List.map_cons, List.flatten_cons, ← ihm]
                rw [show qhSegProc (.normal, ['/']) = ['/'] from by decide]
                rfl
              · rw [List.map_cons, List.flatten_cons]
                show ['/'] ++ _ = _
                rw [ihc, hc2]
                rfl
        · by_cases hc3 : c = '\''
          · have hg2 : (grabSingle t).2.length < fuel := by
              have := grabSingle_snd_length t
              omega
            obtain ⟨ihm, ihc⟩ := ih (grabSingle t).2 hg2
            cases t with
            | nil =>
              subst hc3
              refine ⟨?_, ?_⟩ <;>
                simp [qhAux, segsAux, qhSegProc, grabSingle, quote_hyphenated_identifiers,
                  qhAux_nil, segsAux_nil]
            | cons d t' =>
              rw [qhAux, segsAux, if_neg hc1, if_neg hc1, if_neg hc2, if_neg hc2,
                if_pos hc3, if_pos hc3]
              constructor
              · rw [qhAux_single_grab fuel (d :: t') hlt]
                rw [qhAux_fuel_congr ((grabSingle (d :: t')).2.length + 1) fuel .normal
                  (grabSingle (d :: t')).2 (by omega) hg2]
                rw [List.map_cons, List.flatten_cons, ← ihm]
                rw [show qhSegProc (.single, '\'' :: (grabSingle (d :: t')).1) =
                  '\'' :: (grabSingle (d :: t')).1 from rfl]
                simp
              · rw [List.map_cons, List.flatten_cons]
                show ('\'' :: (grabSingle (d :: t')).1) ++ _ = _
                rw [ihc, List.cons_append, grabSingle_append (d :: t'), hc3]
          · by_cases hc4 : c = '"'
            · have hg2 : (grabDouble t).2.length < fuel := by
                have := grabDouble_snd_length t
                omega
              obtain ⟨ihm, ihc⟩ := ih (grabDouble t).2 hg2
              cases t with
              | nil =>
                subst hc4
                refine ⟨?_, ?_⟩ <;>
                  simp [qhAux, segsAux, qhSegProc, grabDouble, quote_hyphenated_identifiers,
                    qhAux_nil, segsAux_nil]
              | cons d t' =>
                rw [qhAux, segsAux, if_neg hc1, if_neg hc1, if_neg hc2, if_neg hc2,
                  if_neg hc3, if_neg hc3, if_pos hc4, if_pos hc4]
                constructor
                · rw [qhAux_double_grab fuel (d :: t') hlt]
                  rw [qhAux_fuel_congr ((grabDouble (d :: t')).2.length + 1) fuel .normal
                    (grabDouble (d :: t')).2 (by omega) hg2]
                  rw [List.map_cons, List.flatten_cons, ← ihm]
                  rw [show qhSegProc (.double, '"' :: (grabDouble (d :: t')).1) =
                    '"' :: (grabDouble (d :: t')).1 from rfl]
                  simp
                · rw [List.map_cons, List.flatten_cons]
                  show ('"' :: (grabDouble (d :: t')).1) ++ _ = _
                  rw [ihc, List.cons_append, grabDouble_append (d :: t'), hc4]
            · by_cases hc5 : (c.isAlpha || c = '_') = true
              · have hdl : (t.dropWhile identChar).length < fuel := by
                  have : (t.dropWhile identChar).length ≤ t.length :=
                    List.Sublist.length_le (List.dropWhile_sublist _)
                  omega
                obtain ⟨ihm, ihc⟩ := ih (t.dropWhile identChar) hdl
                have htok := qhAux_token c (t.takeWhile identChar) hc5
                  (fun x hx => List.mem_takeWhile_imp hx)
                cases t with
                | nil =>
                  rw [qhAux, segsAux, if_neg hc1, if_neg hc1, if_neg hc2, if_neg hc2,
                    if_neg hc3, if_neg hc3, if_neg hc4, if_neg hc4, if_pos hc5, if_pos hc5]
                  constructor
                  · rw [List.map_cons, List.flatten_cons, ← ihm]
                    rw [show qhSegProc (.normal, c :: List.takeWhile identChar []) =
                      quote_hyphenated_identifiers (c :: List.takeWhile identChar []) from rfl]
                    rw [quote_hyphenated_identifiers, htok]
                  · rw [List.map_cons, List.flatten_cons]
                    show (c :: List.takeWhile identChar []) ++ _ = _
                    rw [ihc, List.cons_append, List.takeWhile_append_dropWhile]
                | cons d t' =>
                  rw [qhAux, segsAux, if_neg hc1, if_neg hc1, if_neg hc2, if_neg hc2,
                    if_neg hc3, if_neg hc3, if_neg hc4, if_neg hc4, if_pos hc5, if_pos hc5]
                  constructor
                  · rw [List.map_cons, List.flatten_cons, ← ihm]
                    rw [show qhSegProc (.normal, c :: (d :: t').takeWhile identChar) =
                      quote_hyphenated_identifiers (c :: (d :: t').takeWhile identChar) from rfl]
                    rw [quote_hyphenated_identifiers, htok]
                  · rw [List.map_cons, List.flatten_cons]
                    show (c :: (d :: t').takeWhile identChar) ++ _ = _
                    rw [ihc, List.cons_append, List.takeWhile_append_dropWhile]
              · obtain ⟨ihm, ihc⟩ := ih t hlt
                have hone := qhAux_single_char c hc1 hc2 hc3 hc4 hc5
                cases t with
                | nil =>
                  rw [qhAux, segsAux, if_neg hc1, if_neg hc1, if_neg hc2, if_neg hc2,
                    if_neg hc3, if_neg hc3, if_neg hc4, if_neg hc4, if_neg hc5, if_neg hc5]
                  constructor
                  · rw [List.map_cons, List.flatten_cons, ← ihm]
                    rw [show qhSegProc (.normal, [c]) = quote_hyphenated_identifiers [c] from rfl]
                    rw [show quote_hyphenated_identifiers [c] = qhAux 2 .normal [c] from rfl, hone]
                    rw [qhAux_nil]
                    rfl
                  · rw [List.map_cons, List.flatten_cons]
                    show [c] ++ _ = _
                    rw [ihc]
                    rfl
                | cons d t' =>
                  rw [qhAux, segsAux, if_neg hc1, if_neg hc1, if_neg hc2, if_neg hc2,
                    if_neg hc3, if_neg hc3, if_neg hc4, if_neg hc4, if_neg hc5, if_neg hc5]
                  constructor
                  · rw [List.map_cons, List.flatten_cons, ← ihm]
                    rw [show qhSegProc (.normal, [c]) = quote_hyphenated_identifiers [c] from rfl]
                    rw [show quote_hyphenated_identifiers [c] = qhAux 2 .normal [c] from rfl, hone]
                    rfl
                  · rw [List.map_cons, List.flatten_cons]
                    show [c] ++ _ = _
                    rw [ihc]
                    rfl

/-- C6 counterexample: the reserved-word pass is a plain regex substitution
and rewrites `ORDER` even inside a single-quoted string literal: the literal
`'ORDER'` becomes `'"ORDER"'`. -/
theorem quote_reserved_alters_literal_counterexample :
    quote_reserved_columns ("'ORDER'").data = ("'\"ORDER\"'").data ∧
    ¬ quote_reserved_columns ("'ORDER'").data = ("'ORDER'").data :=
  ⟨by decide, by decide⟩

/-- C6 (amended): the hyphenated-identifier pass decomposes its input into
normal segments and string-literal / quoted-identifier / comment segments
(`segments`, whose concatenation is the input), and rewrites only the normal
segments: every single-quoted literal, line comment, block comment (and
double-quoted identifier) segment reappears verbatim in the output. The
reserved-word pass does not have this property. -/
theorem quote_hyphenated_identifiers_region_spec (s : List Char) :
    quote_hyphenated_identifiers s = ((segments s).map qhSegProc).flatten ∧
    ((segments s).map Prod.snd).flatten = s ∧
    (∀ seg ∈ segments s, seg.1 ≠ .normal → qhSegProc seg = seg.2) := by
  have h := qhAux_segs (s.length + 1) s (by omega)
  refine ⟨h.1, h.2, ?_⟩
  intro seg _ hseg
  unfold qhSegProc
  rw [if_neg hseg]

/-- Witness for C6 (amended) at a concrete input containing a hyphenated
identifier, a single-quoted literal and a line comment. -/
theorem quote_hyphenated_identifiers_region_spec_witness :
    quote_hyphenated_identifiers ("a-b 'x-y' -- c-d\n").data =
      ((segments ("a-b 'x-y' -- c-d\n").data).map qhSegProc).flatten ∧
    qhSegProc (ScanMode.single, ("'x-y'").data) = ("'x-y'").data :=
  ⟨(quote_hyphenated_identifiers_region_spec ("a-b 'x-y' -- c-d\n").data).1,
   (quote_hyphenated_identifiers_region_spec ("a-b 'x-y' -- c-d\n").data).2.2
     (ScanMode.single, ("'x-y'").data) (by decide) (by decide)⟩
